import Mathlib

/-!
Verification of the code-notes offline sync engine (web/IndexedDB adapter).

The definitions below are a shallow embedding of the TypeScript sources:
  - `IndexedDBSyncStorage` (getPendingChanges, markSynced, applyRemoteChanges,
    upsertRecord, deleteRecord, checkpoint / sync-meta storage),
  - `IndexedDBSyncAdapter.syncNow`,
  - the Dexie database helpers (`trackDelete`, `getCurrentTimestamp`),
  - `WebTopicsAdapter` (update, delete).

IndexedDB object stores are keyed maps; we model each table as a list of rows
together with lookup / put / delete / patch operations keyed on the primary
key, matching Dexie's `get` / `put` / `delete` / `update`.  Externals
(JSON.parse / JSON.stringify, Date, the HTTP client, the auth token provider)
are parameters gathered in `Env` or passed explicitly, since they live outside
the repository.
-/

/-- Scalar wire value: the delta protocol's `data` mapping carries only
strings and numbers (`mapping<string, string|number|null>`); absent keys are
modelled by the key not being present in the association list. -/
inductive Value where
  | str (s : String)
  | num (n : Int)
deriving DecidableEq, Repr

/-- Association-list representation of a JS object of scalars. -/
abbrev DataMap := List (String × Value)

/-- Lookup of a field of a `data` object (`data.foo`). -/
def dlookup (k : String) (d : DataMap) : Option Value :=
  (d.find? (fun p => p.1 == k)).map (·.2)

/-- JS string read with falsy fallback: `(data.x as string) || d`. -/
def vStr (v : Option Value) (d : String) : String :=
  match v with
  | some (.str s) => if s == "" then d else s
  | _ => d

/-- JS number read with falsy fallback: `(data.x as number) || d`. -/
def vNum (v : Option Value) (d : Int) : Int :=
  match v with
  | some (.num n) => if n == 0 then d else n
  | _ => d

/-- JS optional string read: `data.x as string | undefined`. -/
def vOptStr (v : Option Value) : Option String :=
  match v with
  | some (.str s) => some s
  | _ => none

/-- JS truthiness of a possibly-absent scalar (`if (data.x)`). -/
def vTruthy (v : Option Value) : Bool :=
  match v with
  | some (.str s) => !(s == "")
  | some (.num n) => !(n == 0)
  | none => false

/-- The markdown answer blob (`interface Answer { markdown: string }`). -/
structure Answer where
  markdown : String
deriving DecidableEq, Repr

/-- One quiz answer entry (`interface QuizResult`). -/
structure QuizResult where
  questionId : String
  wasCorrect : Bool
  confidenceRating : Int
  timeSpentSeconds : Option Int
  answeredAt : String
deriving DecidableEq, Repr

/-- Topic row as stored in the `topics` table, including the sync
bookkeeping fields `sync_version` / `synced_at` (absent `sync_version` is
modelled as 0, matching the `|| 0` / `|| 1` fallbacks in the source). -/
structure Topic where
  id : String
  name : String
  description : String
  slug : String
  icon : String
  color : String
  subtopics : Option (List String)
  order : Int
  createdAt : String
  updatedAt : String
  sync_version : Nat
  synced_at : Option Nat
deriving DecidableEq, Repr

/-- Question row as stored in the `questions` table.  `answer` is `Option`
because at runtime the field can be absent; when present it is the parsed
`Answer` object. -/
structure Question where
  id : String
  topicId : String
  subtopic : Option String
  questionNumber : Int
  question : String
  answer : Option Answer
  tags : List String
  difficulty : String
  order : Int
  createdAt : String
  updatedAt : String
  sync_version : Nat
  synced_at : Option Nat
deriving DecidableEq, Repr

/-- Progress row (`interface QuestionProgress`); the primary key is
`questionId`. -/
structure QuestionProgress where
  questionId : String
  topicId : String
  status : String
  confidenceLevel : Int
  timesReviewed : Int
  timesCorrect : Int
  timesIncorrect : Int
  lastReviewedAt : Option String
  nextReviewAt : Option String
  createdAt : String
  updatedAt : String
  sync_version : Nat
  synced_at : Option Nat
deriving DecidableEq, Repr

/-- Quiz session row (`interface QuizSession`). -/
structure QuizSession where
  id : String
  sessionType : String
  topicIds : List String
  questionIds : List String
  currentIndex : Int
  startedAt : String
  completedAt : Option String
  results : List QuizResult
  sync_version : Nat
  synced_at : Option Nat
deriving DecidableEq, Repr

/-- Entry of the `_pendingChanges` queue (auto-increment table, so queue
order is insertion order; the numeric `id` is left implicit as the list
position). -/
structure PendingChange where
  tableName : String
  rowId : String
  operation : String
  data : DataMap
  version : Nat
  createdAt : Nat
deriving DecidableEq, Repr

/-- The local Dexie database (`CodeNotesDB`): the four entity tables plus the
`_pendingChanges` queue and the `_syncMeta` key-value table. -/
structure Db where
  topics : List Topic
  questions : List Question
  progress : List QuestionProgress
  quizSessions : List QuizSession
  pendingChanges : List PendingChange
  syncMeta : List (String × String)
deriving DecidableEq, Repr

/-- The empty database. -/
def Db.empty : Db := ⟨[], [], [], [], [], []⟩

/-- Keyed lookup, modelling `table.get(k)` of a keyed object store. -/
def listGet (key : α → String) (k : String) (l : List α) : Option α :=
  l.find? (fun r => key r == k)

/-- Keyed upsert, modelling `table.put(r)`: replace the row with the same
primary key, or insert. -/
def listPut (key : α → String) (r : α) (l : List α) : List α :=
  if l.any (fun x => key x == key r) then
    l.map (fun x => if key x == key r then r else x)
  else l ++ [r]

/-- Keyed delete, modelling `table.delete(k)` (delete-if-exists). -/
def listDel (key : α → String) (k : String) (l : List α) : List α :=
  l.filter (fun x => !(key x == k))

/-- Keyed patch, modelling `table.update(k, changes)`: apply `f` to the row
with key `k` if present, otherwise a no-op. -/
def listUpdate (key : α → String) (k : String) (f : α → α) (l : List α) : List α :=
  l.map (fun x => if key x == k then f x else x)

/-- Primary key of a topics row. -/
def Topic.key (t : Topic) : String := t.id

/-- Primary key of a questions row. -/
def Question.key (q : Question) : String := q.id

/-- Primary key of a progress row (`questionId` is the PK in Dexie). -/
def QuestionProgress.key (p : QuestionProgress) : String := p.questionId

/-- Primary key of a quiz-sessions row. -/
def QuizSession.key (s : QuizSession) : String := s.id

/-- Opaque server-issued sync cursor.  The engine never inspects it
(`Checkpoint` from the shared sync package; an opaque token per the spec). -/
structure Checkpoint where
  raw : String
deriving DecidableEq, Repr

/-- One record of the delta wire protocol (`SyncRecord` / `PullRecord` from
the shared sync package): `{tableName, rowId, data, version, deleted}`. -/
structure SyncRecord where
  tableName : String
  rowId : String
  data : DataMap
  version : Nat
  deleted : Bool
deriving DecidableEq, Repr

/-- External collaborators of the storage layer, passed as parameters:
`JSON.stringify` / `JSON.parse` for the flattened structured fields (a parse
result of `none` models a `JSON.parse` throw caught by the source's
`try`/`catch`), `getCurrentTimestamp()` (`now`), and
`new Date().toISOString()` (`nowISO`).  The checkpoint is serialized and
re-parsed through the same JSON layer. -/
structure Env where
  now : Nat
  nowISO : String
  stringifyStrings : List String → String
  stringifyAnswer : Answer → String
  stringifyResults : List QuizResult → String
  stringifyCheckpoint : Checkpoint → String
  parseStrings : String → Option (List String)
  parseAnswer : String → Option Answer
  parseResults : String → Option (List QuizResult)
  parseCheckpoint : String → Option Checkpoint

/-- Build a `data` entry for a field that is present. -/
def entry (k : String) (v : Value) : DataMap := [(k, v)]

/-- Build a `data` entry for an optional field: an absent value produces no
entry (the JS object then carries `undefined`, which the wire drops). -/
def entryOpt (k : String) : Option Value → DataMap
  | some v => [(k, v)]
  | none => []

/-- Serialization of a dirty topics row in `getPendingChanges` (step 1 of the
source: field set and order as written there; `subtopics` is stringified only
when present, `version` is `sync_version || 1`). -/
def topicPendingRecord (env : Env) (t : Topic) : SyncRecord :=
  { tableName := "topics"
    rowId := t.id
    data :=
      entry "name" (.str t.name) ++
      entry "description" (.str t.description) ++
      entry "slug" (.str t.slug) ++
      entry "icon" (.str t.icon) ++
      entry "color" (.str t.color) ++
      entryOpt "subtopics" ((t.subtopics).map (fun l => .str (env.stringifyStrings l))) ++
      entry "orderIndex" (.num t.order) ++
      entry "createdAt" (.str t.createdAt) ++
      entry "updatedAt" (.str t.updatedAt)
    version := if t.sync_version == 0 then 1 else t.sync_version
    deleted := false }

/-- Serialization of a dirty questions row in `getPendingChanges` (step 2).
The source stringifies `answer` when it is an object; the row type stores the
parsed object, so a present answer is always stringified. -/
def questionPendingRecord (env : Env) (q : Question) : SyncRecord :=
  { tableName := "questions"
    rowId := q.id
    data :=
      entry "topicSyncUuid" (.str q.topicId) ++
      entryOpt "subtopic" ((q.subtopic).map .str) ++
      entry "questionNumber" (.num q.questionNumber) ++
      entry "question" (.str q.question) ++
      entryOpt "answer" ((q.answer).map (fun a => .str (env.stringifyAnswer a))) ++
      entry "tags" (.str (env.stringifyStrings q.tags)) ++
      entry "difficulty" (.str q.difficulty) ++
      entry "orderIndex" (.num q.order) ++
      entry "createdAt" (.str q.createdAt) ++
      entry "updatedAt" (.str q.updatedAt)
    version := if q.sync_version == 0 then 1 else q.sync_version
    deleted := false }

/-- Serialization of a dirty progress row in `getPendingChanges` (step 3);
`rowId` is the `questionId` primary key. -/
def progressPendingRecord (p : QuestionProgress) : SyncRecord :=
  { tableName := "progress"
    rowId := p.questionId
    data :=
      entry "questionSyncUuid" (.str p.questionId) ++
      entry "topicSyncUuid" (.str p.topicId) ++
      entry "status" (.str p.status) ++
      entry "confidenceLevel" (.num p.confidenceLevel) ++
      entry "timesReviewed" (.num p.timesReviewed) ++
      entry "timesCorrect" (.num p.timesCorrect) ++
      entry "timesIncorrect" (.num p.timesIncorrect) ++
      entryOpt "lastReviewedAt" ((p.lastReviewedAt).map .str) ++
      entryOpt "nextReviewAt" ((p.nextReviewAt).map .str) ++
      entry "createdAt" (.str p.createdAt) ++
      entry "updatedAt" (.str p.updatedAt)
    version := if p.sync_version == 0 then 1 else p.sync_version
    deleted := false }

/-- Serialization of a dirty quiz-sessions row in `getPendingChanges`
(step 4); emitted under the server table name `quiz_sessions`. -/
def sessionPendingRecord (env : Env) (s : QuizSession) : SyncRecord :=
  { tableName := "quiz_sessions"
    rowId := s.id
    data :=
      entry "sessionType" (.str s.sessionType) ++
      entry "topicIds" (.str (env.stringifyStrings s.topicIds)) ++
      entry "questionIds" (.str (env.stringifyStrings s.questionIds)) ++
      entry "currentIndex" (.num s.currentIndex) ++
      entry "startedAt" (.str s.startedAt) ++
      entryOpt "completedAt" ((s.completedAt).map .str) ++
      entry "results" (.str (env.stringifyResults s.results))
    version := if s.sync_version == 0 then 1 else s.sync_version
    deleted := false }

/-- Dirty check `synced_at === undefined || synced_at === null`. -/
def unsynced (syncedAt : Option Nat) : Bool := syncedAt == none

/-- Tombstone entry of the queue mapped to a wire record (step 5 of
`getPendingChanges`): the local `quizSessions` table name is normalized to
the server's `quiz_sessions`, data is empty, `deleted` is true. -/
def tombstoneRecord (c : PendingChange) : SyncRecord :=
  { tableName := if c.tableName == "quizSessions" then "quiz_sessions" else c.tableName
    rowId := c.rowId
    data := []
    version := c.version
    deleted := true }

/-- `IndexedDBSyncStorage.getPendingChanges`: every row of the four tables
whose `synced_at` is unset, serialized in table order
(topics, questions, progress, quiz sessions), followed by one `deleted:true`
record per `operation === "delete"` entry of the `_pendingChanges` queue. -/
def getPendingChanges (env : Env) (db : Db) : List SyncRecord :=
  ((db.topics.filter (fun t => unsynced t.synced_at)).map (topicPendingRecord env)) ++
  ((db.questions.filter (fun q => unsynced q.synced_at)).map (questionPendingRecord env)) ++
  ((db.progress.filter (fun p => unsynced p.synced_at)).map progressPendingRecord) ++
  ((db.quizSessions.filter (fun s => unsynced s.synced_at)).map (sessionPendingRecord env)) ++
  ((db.pendingChanges.filter (fun c => c.operation == "delete")).map tombstoneRecord)

/-- The `trackDelete` helper of the web database module: append a
`delete` entry to `_pendingChanges` with `version: (syncVersion || 0) + 1`
(for a `Nat` version this is `syncVersion + 1`). -/
def trackDelete (env : Env) (tableName : String) (id : String) (syncVersion : Nat)
    (db : Db) : Db :=
  { db with pendingChanges := db.pendingChanges ++
      [{ tableName := tableName, rowId := id, operation := "delete", data := [],
         version := syncVersion + 1, createdAt := env.now }] }

/-- Update payload of `WebTopicsAdapter.update` (`UpdateTopicDto`): every
domain field optional. -/
structure UpdateTopicDto where
  name : Option String := none
  description : Option String := none
  slug : Option String := none
  icon : Option String := none
  color : Option String := none
  subtopics : Option (List String) := none
  order : Option Int := none
deriving DecidableEq, Repr

/-- The patch `WebTopicsAdapter.update` writes:
`{...dto, updatedAt: now ISO, sync_version: (old || 0) + 1,
synced_at: undefined}` applied to the fetched row. -/
def applyTopicPatch (env : Env) (dto : UpdateTopicDto) (t : Topic) : Topic :=
  { t with
    name := dto.name.getD t.name
    description := dto.description.getD t.description
    slug := dto.slug.getD t.slug
    icon := dto.icon.getD t.icon
    color := dto.color.getD t.color
    subtopics := match dto.subtopics with
      | some l => some l
      | none => t.subtopics
    order := dto.order.getD t.order
    updatedAt := env.nowISO
    sync_version := t.sync_version + 1
    synced_at := none }

/-- `WebTopicsAdapter.update`: fetch the row; if absent return `false`;
otherwise patch it (see `applyTopicPatch`). -/
def topicUpdate (env : Env) (id : String) (dto : UpdateTopicDto) (db : Db) :
    Bool × Db :=
  match listGet Topic.key id db.topics with
  | none => (false, db)
  | some _ =>
    (true,
     { db with topics :=
         listUpdate Topic.key id (applyTopicPatch env dto) db.topics })

/-- Observable step of `WebTopicsAdapter.delete`'s transaction body, used to
state in which order tombstones are enqueued relative to the physical
deletions: `tomb` is a `trackDelete` call, the `phys`-steps are the
`db.*.delete(...)` calls. -/
inductive DelEvent where
  | tomb (tableName : String) (rowId : String)
  | physProgress (questionId : String)
  | physQuestions (topicId : String)
  | physTopic (id : String)
deriving DecidableEq, Repr

/-- Loop body of `WebTopicsAdapter.delete` for one child question: if a
progress row exists, track its delete; delete the progress row; track the
question's delete.  Returns the new state together with the emitted events. -/
def deleteQuestionStep (env : Env) (st : Db × List DelEvent) (q : Question) :
    Db × List DelEvent :=
  let (db, evs) := st
  let (db, evs) :=
    match listGet QuestionProgress.key q.id db.progress with
    | some p =>
      (trackDelete env "progress" q.id p.sync_version db,
       evs ++ [DelEvent.tomb "progress" q.id])
    | none => (db, evs)
  let db := { db with progress := listDel QuestionProgress.key q.id db.progress }
  let evs := evs ++ [DelEvent.physProgress q.id]
  (trackDelete env "questions" q.id q.sync_version db,
   evs ++ [DelEvent.tomb "questions" q.id])

/-- `WebTopicsAdapter.delete`, with its event trace: snapshot the child
questions (`where("topicId").equals(id)`), run the per-question loop, bulk
delete the child questions, then track and perform the parent topic's
delete. -/
def topicDeleteRun (env : Env) (id : String) (db : Db) : Db × List DelEvent :=
  let questions := db.questions.filter (fun q => q.topicId == id)
  let (db, evs) := questions.foldl (deleteQuestionStep env) (db, [])
  let db := { db with questions := db.questions.filter (fun q => !(q.topicId == id)) }
  let evs := evs ++ [DelEvent.physQuestions id]
  let (db, evs) :=
    match listGet Topic.key id db.topics with
    | some t => (trackDelete env "topics" id t.sync_version db,
                 evs ++ [DelEvent.tomb "topics" id])
    | none => (db, evs)
  ({ db with topics := listDel Topic.key id db.topics },
   evs ++ [DelEvent.physTopic id])

/-- Resulting state of `WebTopicsAdapter.delete`. -/
def topicDelete (env : Env) (id : String) (db : Db) : Db :=
  (topicDeleteRun env id db).1

/-- `IndexedDBSyncStorage.getTableOrder`: FK-safe rank — lower is parent
(insert first, delete last); unknown tables rank 99. -/
def getTableOrder (tableName : String) : Nat :=
  if tableName == "topics" then 0
  else if tableName == "questions" then 1
  else if tableName == "progress" then 2
  else if tableName == "quiz_sessions" then 2
  else if tableName == "quizSessions" then 2
  else 99

/-- Insert an element into an already-processed list, walking past elements
the comparator keeps in front (`keep x r` = "x stays before r").  With a
strict comparator this yields a stable sort. -/
def insStep (keep : α → α → Bool) (r : α) : List α → List α
  | [] => [r]
  | x :: xs => if keep x r then x :: insStep keep r xs else r :: x :: xs

/-- Stable insertion sort, modelling the ES2019+ stable `Array.prototype.sort`
used with the rank comparators of `applyRemoteChanges`. -/
def stableSort (keep : α → α → Bool) : List α → List α
  | [] => []
  | x :: xs => insStep keep x (stableSort keep xs)

/-- Ascending comparator of the non-deleted batch
(`(a, b) => order(a) - order(b)`, stable): a processed element stays in front
iff its rank is strictly smaller. -/
def rankAsc (a b : SyncRecord) : Bool :=
  getTableOrder a.tableName < getTableOrder b.tableName

/-- Descending comparator of the deleted batch
(`(a, b) => order(b) - order(a)`, stable). -/
def rankDesc (a b : SyncRecord) : Bool :=
  getTableOrder b.tableName < getTableOrder a.tableName

/-- Decoder for a JSON-encoded string-list field guarded by a truthiness
check (`if (data.x) { try ... catch ... }`), where the `catch` falls back to
`fallback` and a falsy / absent value leaves `init`.  The source's
non-string branch (`data.x as string[]`) cannot carry a list in the scalar
wire model and is mapped to the fallback. -/
def decodeStrList (env : Env) (v : Option Value) (init fallback : List String) :
    List String :=
  match v with
  | some (.str s) =>
    if s == "" then init
    else match env.parseStrings s with
      | some l => l
      | none => fallback
  | some (.num n) => if n == 0 then init else fallback
  | none => init

/-- `IndexedDBSyncStorage.upsertRecord` for `topics`: the `subtopics` decode
(`string[] | undefined`, set only when `data.subtopics` is truthy, `catch`
falls back to `[]`). -/
def decodeSubtopics (env : Env) (v : Option Value) : Option (List String) :=
  match v with
  | some (.str s) =>
    if s == "" then none
    else some ((env.parseStrings s).getD [])
  | some (.num n) => if n == 0 then none else some []
  | none => none

/-- Topics row written by `upsertRecord`: every field from the server-sent
`data` with the source's falsy fallbacks; `sync_version` stamped to the
server version, `synced_at` to the pull timestamp. -/
def topicRowOf (env : Env) (r : SyncRecord) : Topic :=
  { id := r.rowId
    name := vStr (dlookup "name" r.data) ""
    description := vStr (dlookup "description" r.data) ""
    slug := vStr (dlookup "slug" r.data) ""
    icon := vStr (dlookup "icon" r.data) ""
    color := vStr (dlookup "color" r.data) ""
    subtopics := decodeSubtopics env (dlookup "subtopics" r.data)
    order := vNum (dlookup "orderIndex" r.data) 0
    createdAt := vStr (dlookup "createdAt" r.data) env.nowISO
    updatedAt := vStr (dlookup "updatedAt" r.data) env.nowISO
    sync_version := r.version
    synced_at := some env.now }

/-- Answer decode of `upsertRecord` for `questions`: a string is
`JSON.parse`d, a parse throw wraps the raw string as `{ markdown: answer }`;
a non-string value passes through untyped in the source and is modelled as
absent. -/
def decodeAnswer (env : Env) (v : Option Value) : Option Answer :=
  match v with
  | some (.str s) => some ((env.parseAnswer s).getD { markdown := s })
  | _ => none

/-- Questions row written by `upsertRecord`: `tags` decodes with both the
empty default and the `catch` fallback equal to `[]`. -/
def questionRowOf (env : Env) (r : SyncRecord) : Question :=
  { id := r.rowId
    topicId := vStr (dlookup "topicSyncUuid" r.data) ""
    subtopic := vOptStr (dlookup "subtopic" r.data)
    questionNumber := vNum (dlookup "questionNumber" r.data) 0
    question := vStr (dlookup "question" r.data) ""
    answer := decodeAnswer env (dlookup "answer" r.data)
    tags := decodeStrList env (dlookup "tags" r.data) [] []
    difficulty := vStr (dlookup "difficulty" r.data) "beginner"
    order := vNum (dlookup "orderIndex" r.data) 0
    createdAt := vStr (dlookup "createdAt" r.data) env.nowISO
    updatedAt := vStr (dlookup "updatedAt" r.data) env.nowISO
    sync_version := r.version
    synced_at := some env.now }

/-- Progress row written by `upsertRecord`; its primary key is
`(data.questionSyncUuid as string) || record.rowId`. -/
def progressRowOf (env : Env) (r : SyncRecord) : QuestionProgress :=
  { questionId := vStr (dlookup "questionSyncUuid" r.data) r.rowId
    topicId := vStr (dlookup "topicSyncUuid" r.data) ""
    status := vStr (dlookup "status" r.data) "NotStudied"
    confidenceLevel := vNum (dlookup "confidenceLevel" r.data) 0
    timesReviewed := vNum (dlookup "timesReviewed" r.data) 0
    timesCorrect := vNum (dlookup "timesCorrect" r.data) 0
    timesIncorrect := vNum (dlookup "timesIncorrect" r.data) 0
    lastReviewedAt := vOptStr (dlookup "lastReviewedAt" r.data)
    nextReviewAt := vOptStr (dlookup "nextReviewAt" r.data)
    createdAt := vStr (dlookup "createdAt" r.data) env.nowISO
    updatedAt := vStr (dlookup "updatedAt" r.data) env.nowISO
    sync_version := r.version
    synced_at := some env.now }

/-- Results decode of `upsertRecord` for `quiz_sessions` (`catch` leaves the
initial `[]`). -/
def decodeResults (env : Env) (v : Option Value) : List QuizResult :=
  match v with
  | some (.str s) =>
    if s == "" then []
    else (env.parseResults s).getD []
  | _ => []

/-- Quiz-sessions row written by `upsertRecord`. -/
def sessionRowOf (env : Env) (r : SyncRecord) : QuizSession :=
  { id := r.rowId
    sessionType := vStr (dlookup "sessionType" r.data) "Random"
    topicIds := decodeStrList env (dlookup "topicIds" r.data) [] []
    questionIds := decodeStrList env (dlookup "questionIds" r.data) [] []
    currentIndex := vNum (dlookup "currentIndex" r.data) 0
    startedAt := vStr (dlookup "startedAt" r.data) env.nowISO
    completedAt := vOptStr (dlookup "completedAt" r.data)
    results := decodeResults env (dlookup "results" r.data)
    sync_version := r.version
    synced_at := some env.now }

/-- `IndexedDBSyncStorage.upsertRecord`: switch on the wire table name, put a
fully rebuilt row into the matching table; unknown table names are logged and
skipped. -/
def upsertRecord (env : Env) (r : SyncRecord) (db : Db) : Db :=
  if r.tableName == "topics" then
    { db with topics := listPut Topic.key (topicRowOf env r) db.topics }
  else if r.tableName == "questions" then
    { db with questions := listPut Question.key (questionRowOf env r) db.questions }
  else if r.tableName == "progress" then
    { db with progress := listPut QuestionProgress.key (progressRowOf env r) db.progress }
  else if r.tableName == "quiz_sessions" then
    { db with quizSessions := listPut QuizSession.key (sessionRowOf env r) db.quizSessions }
  else db

/-- `IndexedDBSyncStorage.deleteRecord`: resolve the table through `getTable`
(which accepts both `quizSessions` and `quiz_sessions`) and
delete-if-exists; unknown tables are logged and skipped. -/
def deleteRecord (r : SyncRecord) (db : Db) : Db :=
  if r.tableName == "topics" then
    { db with topics := listDel Topic.key r.rowId db.topics }
  else if r.tableName == "questions" then
    { db with questions := listDel Question.key r.rowId db.questions }
  else if r.tableName == "progress" then
    { db with progress := listDel QuestionProgress.key r.rowId db.progress }
  else if r.tableName == "quizSessions" || r.tableName == "quiz_sessions" then
    { db with quizSessions := listDel QuizSession.key r.rowId db.quizSessions }
  else db

/-- The sorted non-deleted partition of a pull batch (parents first). -/
def sortedNonDeleted (records : List SyncRecord) : List SyncRecord :=
  stableSort rankAsc (records.filter (fun r => !r.deleted))

/-- The sorted deleted partition of a pull batch (children first). -/
def sortedDeleted (records : List SyncRecord) : List SyncRecord :=
  stableSort rankDesc (records.filter (fun r => r.deleted))

/-- The upsert pass of `applyRemoteChanges`. -/
def applyUpserts (env : Env) (l : List SyncRecord) (db : Db) : Db :=
  l.foldl (fun s r => upsertRecord env r s) db

/-- The delete pass of `applyRemoteChanges`. -/
def applyDeletes (l : List SyncRecord) (db : Db) : Db :=
  l.foldl (fun s r => deleteRecord r s) db

/-- `IndexedDBSyncStorage.applyRemoteChanges`: partition, sort each side by
table rank, upsert every non-deleted record, then delete every deleted
record, inside one transaction. -/
def applyRemoteChanges (env : Env) (records : List SyncRecord) (db : Db) : Db :=
  applyDeletes (sortedDeleted records)
    (applyUpserts env (sortedNonDeleted records) db)

/-- `IndexedDBSyncStorage.serverToLocalTableName`. -/
def serverToLocalTableName (tableName : String) : String :=
  if tableName == "quiz_sessions" then "quizSessions" else tableName

/-- One iteration of `markSynced`: drop every `_pendingChanges` entry with
the (local-named) key, then set `synced_at` on the row if it still exists in
its home table — `getTable` accepts both session table spellings, any other
unknown name is skipped.  The guarded `update` never creates a row. -/
def markSyncedOne (now : Nat) (db : Db) (p : String × String) : Db :=
  let localName := serverToLocalTableName p.1
  let db := { db with pendingChanges :=
    db.pendingChanges.filter (fun c => !(c.tableName == localName && c.rowId == p.2)) }
  if p.1 == "topics" then
    { db with topics :=
        listUpdate Topic.key p.2 (fun t => { t with synced_at := some now }) db.topics }
  else if p.1 == "questions" then
    { db with questions :=
        listUpdate Question.key p.2 (fun q => { q with synced_at := some now }) db.questions }
  else if p.1 == "progress" then
    { db with progress :=
        listUpdate QuestionProgress.key p.2 (fun q => { q with synced_at := some now }) db.progress }
  else if p.1 == "quizSessions" || p.1 == "quiz_sessions" then
    { db with quizSessions :=
        listUpdate QuizSession.key p.2 (fun s => { s with synced_at := some now }) db.quizSessions }
  else db

/-- `IndexedDBSyncStorage.markSynced` over the whole id list (one
transaction). -/
def markSynced (now : Nat) (recordIds : List (String × String)) (db : Db) : Db :=
  recordIds.foldl (markSyncedOne now) db

/-- `CodeNotesDB.getSyncMeta`. -/
def getSyncMeta (db : Db) (k : String) : Option String :=
  (listGet Prod.fst k db.syncMeta).map (·.2)

/-- `CodeNotesDB.setSyncMeta` (`_syncMeta.put({key, value})`). -/
def setSyncMeta (db : Db) (k v : String) : Db :=
  { db with syncMeta := listPut Prod.fst (k, v) db.syncMeta }

/-- `IndexedDBSyncStorage.saveCheckpoint`: store the JSON-serialized
checkpoint under the `checkpoint` meta key. -/
def saveCheckpoint (env : Env) (db : Db) (cp : Checkpoint) : Db :=
  setSyncMeta db "checkpoint" (env.stringifyCheckpoint cp)

/-- `IndexedDBSyncStorage.getCheckpoint`: read and parse the stored
checkpoint; a missing value or a parse throw yields `undefined`. -/
def getCheckpoint (env : Env) (db : Db) : Option Checkpoint :=
  match getSyncMeta db "checkpoint" with
  | none => none
  | some s => env.parseCheckpoint s

/-- `IndexedDBSyncStorage.saveLastSyncAt`. -/
def saveLastSyncAt (db : Db) (timestamp : Nat) : Db :=
  setSyncMeta db "lastSyncAt" (toString timestamp)

/-- Modelled from the spec: the token triple held in memory by
`QmSyncClient`, whose source (`@code-notes/shared` sync package) is not in
the repository snapshot — "Holds access token, refresh token, and user id in
memory" (§4.3). -/
structure Tokens where
  accessToken : String
  refreshToken : String
  userId : Option String
deriving DecidableEq, Repr

/-- Modelled from the spec: the in-memory state of `QmSyncClient`.
`setTokens` installs all three values at once, so a held access token and a
held refresh token coincide; `logout()` clears them. -/
structure ClientState where
  tokens : Option Tokens
deriving DecidableEq, Repr

/-- Modelled from the spec: `QmSyncClient.isAuthenticated` — "true iff an
access token is currently held" (§4.3); absence of either token means not
authenticated (§6), which coincides here because tokens are installed
together. -/
def isAuthenticated (c : ClientState) : Bool :=
  c.tokens.isSome

/-- Result of the external token provider (`config.getTokens()`): each field
may be absent. -/
structure ProviderTokens where
  accessToken : Option String
  refreshToken : Option String
  userId : Option String
deriving DecidableEq, Repr

/-- JS truthiness of an optional string (`if (accessToken && refreshToken)`):
absent or empty is falsy. -/
def tokTruthy : Option String → Bool
  | some s => !(s == "")
  | none => false

/-- Token refresh step at the top of `syncNow`: read the provider's tokens
and install them via `setTokens` only when both are truthy; otherwise the
client keeps whatever it held. -/
def refreshTokens (provider : ProviderTokens) (c : ClientState) : ClientState :=
  if tokTruthy provider.accessToken && tokTruthy provider.refreshToken then
    { tokens := some
        { accessToken := provider.accessToken.getD ""
          refreshToken := provider.refreshToken.getD ""
          userId := provider.userId } }
  else c

/-- Push component of the delta response: `{synced, conflicts}`. -/
structure PushResponse where
  synced : Nat
  conflicts : List String
deriving DecidableEq, Repr

/-- Pull component of the delta response: `{records, checkpoint}`. -/
structure PullResponse where
  records : List SyncRecord
  checkpoint : Checkpoint
deriving DecidableEq, Repr

/-- Delta response; the adapter guards each component with a truthiness
check, so both are optional. -/
structure DeltaResponse where
  push : Option PushResponse
  pull : Option PullResponse
deriving DecidableEq, Repr

/-- Wire-level result of `syncNow` (`SyncResult`). -/
structure SyncResult where
  pushed : Nat
  pulled : Nat
  conflicts : Nat
  success : Bool
  error : Option String
  syncedAt : Nat
deriving DecidableEq, Repr

/-- Observable outcome of one `syncNow()` call: the returned result, the
post-call database and client state, and whether the delta network request
was issued at all. -/
structure SyncOutcome where
  result : SyncResult
  db : Db
  client : ClientState
  deltaCalled : Bool
deriving DecidableEq, Repr

/-- `IndexedDBSyncAdapter.syncNow`.  The single network round trip is an
external collaborator, so its outcome for this call is the parameter `net`:
`Except.error e` models the call (or response parsing) throwing with message
`e`, caught by the surrounding `try`/`catch`; `Except.ok` is a parsed
response.  On success: count pushed/conflicts, mark ALL gathered pending
changes synced when `synced > 0`, apply pulled records when any, always
persist the returned checkpoint, persist last-sync-at, and report success. -/
def syncNow (env : Env) (provider : ProviderTokens)
    (net : Except String DeltaResponse) (c : ClientState) (db : Db) :
    SyncOutcome :=
  let c := refreshTokens provider c
  if !(isAuthenticated c) then
    { result := { pushed := 0, pulled := 0, conflicts := 0, success := false,
                  error := some "Not authenticated", syncedAt := env.now }
      db := db, client := c, deltaCalled := false }
  else
    let pendingChanges := getPendingChanges env db
    match net with
    | .error e =>
      { result := { pushed := 0, pulled := 0, conflicts := 0, success := false,
                    error := some e, syncedAt := env.now }
        db := db, client := c, deltaCalled := true }
    | .ok response =>
      let pushAgg : Nat × Nat × Db :=
        match response.push with
        | some p =>
          let db :=
            if p.synced > 0 then
              markSynced env.now
                (pendingChanges.map (fun r => (r.tableName, r.rowId))) db
            else db
          (p.synced, p.conflicts.length, db)
        | none => (0, 0, db)
      let pushed := pushAgg.1
      let conflicts := pushAgg.2.1
      let db := pushAgg.2.2
      let pullAgg : Nat × Db :=
        match response.pull with
        | some pl =>
          let db :=
            if pl.records.length > 0 then applyRemoteChanges env pl.records db
            else db
          (pl.records.length, saveCheckpoint env db pl.checkpoint)
        | none => (0, db)
      let pulled := pullAgg.1
      let db := pullAgg.2
      let db := saveLastSyncAt db env.now
      { result := { pushed := pushed, pulled := pulled, conflicts := conflicts,
                    success := true, error := none, syncedAt := env.now }
        db := db, client := c, deltaCalled := true }

/-- Key under which `upsertRecord` writes a non-deleted record: the target
table together with the written primary key (for `progress` the key is
`(data.questionSyncUuid as string) || rowId`).  `none` for deleted records
and unknown tables (which write nothing). -/
def progressKeyOf (r : SyncRecord) : String :=
  vStr (dlookup "questionSyncUuid" r.data) r.rowId

/-- See `progressKeyOf`; the write target of one wire record. -/
def writeKey (r : SyncRecord) : Option (String × String) :=
  if r.deleted then none
  else if r.tableName == "topics" then some ("topics", r.rowId)
  else if r.tableName == "questions" then some ("questions", r.rowId)
  else if r.tableName == "progress" then some ("progress", progressKeyOf r)
  else if r.tableName == "quiz_sessions" then some ("quiz_sessions", r.rowId)
  else none

/-- A concrete environment used for witnesses and counterexamples; its JSON
collaborators are simple total functions, and every `parse` fails (models a
`JSON.parse` throw on any input it is given). -/
def envC : Env :=
  { now := 100
    nowISO := "T0"
    stringifyStrings := fun l => String.intercalate "," l
    stringifyAnswer := fun a => a.markdown
    stringifyResults := fun _ => "R"
    stringifyCheckpoint := fun c => c.raw
    parseStrings := fun _ => none
    parseAnswer := fun _ => none
    parseResults := fun _ => none
    parseCheckpoint := fun _ => none }

/-- Provider holding no tokens. -/
def provNone : ProviderTokens := ⟨none, none, none⟩

/-- Client already holding a token triple. -/
def clientA : ClientState := { tokens := some ⟨"at", "rt", none⟩ }

/-- Client holding no tokens. -/
def clientN : ClientState := { tokens := none }

/-- Fixture: a dirty local topic (unset `synced_at`). -/
def topicT1 : Topic := ⟨"t1", "Java", "", "", "", "", none, 0, "T0", "T0", 1, none⟩

/-- Fixture: a second dirty local topic. -/
def topicT2 : Topic := ⟨"t2", "Rust", "", "", "", "", none, 0, "T0", "T0", 1, none⟩

/-- Fixture database for the conflict scenario: two dirty topics. -/
def dbConflict : Db := { Db.empty with topics := [topicT1, topicT2] }

/-- Fixture delta response: the server accepts one row and reports row `t2`
as a conflict; no pull component. -/
def respConflict : DeltaResponse :=
  { push := some { synced := 1, conflicts := ["t2"] }, pull := none }

/-- Fixture: topic `t1` with two child questions, each with a progress row
(the tombstone-ordering scenario with N = 2). -/
def questionQ1 : Question :=
  ⟨"q1", "t1", none, 1, "Q1", none, [], "beginner", 0, "T0", "T0", 2, none⟩

/-- See `questionQ1`. -/
def questionQ2 : Question :=
  ⟨"q2", "t1", none, 2, "Q2", none, [], "beginner", 0, "T0", "T0", 5, none⟩

/-- Progress row of `questionQ1`. -/
def progressQ1 : QuestionProgress :=
  ⟨"q1", "t1", "Studying", 1, 0, 0, 0, none, none, "T0", "T0", 3, none⟩

/-- Progress row of `questionQ2`. -/
def progressQ2 : QuestionProgress :=
  ⟨"q2", "t1", "Studying", 1, 0, 0, 0, none, none, "T0", "T0", 7, none⟩

/-- Fixture database for the cascade-delete scenario. -/
def dbCascade : Db :=
  { Db.empty with
    topics := [{ topicT1 with sync_version := 9 }]
    questions := [questionQ1, questionQ2]
    progress := [progressQ1, progressQ2] }

/-- Fixture: two non-deleted pull records for the SAME topics row `t1` with
different payloads. -/
def recDupA : SyncRecord := ⟨"topics", "t1", [("name", .str "A")], 1, false⟩

/-- See `recDupA`. -/
def recDupB : SyncRecord := ⟨"topics", "t1", [("name", .str "B")], 1, false⟩

/-- Fixture: the Scenario C pull record
`{tableName:"topics", rowId:"t2", data:{name:"Go"}, version:1, deleted:false}`. -/
def recScenC : SyncRecord := ⟨"topics", "t2", [("name", .str "Go")], 1, false⟩

/-- Fixture delta response with an empty pull batch and checkpoint `ck-1`. -/
def respEmptyPull : DeltaResponse :=
  { push := none, pull := some { records := [], checkpoint := ⟨"ck-1"⟩ } }

/-- Fixture: a pull record for a question whose `tags` field is a string on
which the JSON parse fails (every parse of `envC` fails). -/
def recBadTags : SyncRecord :=
  ⟨"questions", "q9",
   [("question", .str "What?"), ("answer", .str "plain"),
    ("tags", .str "not json"), ("difficulty", .str "advanced")],
   2, false⟩

/-- Fixture batch for the permutation witness: two distinct-key records. -/
def recPermA : SyncRecord := ⟨"topics", "tA", [("name", .str "A")], 1, false⟩

/-- See `recPermA`. -/
def recPermB : SyncRecord := ⟨"questions", "qB", [("question", .str "B")], 1, false⟩

/-- Tombstone block of one child question in `WebTopicsAdapter.delete`: the
progress tombstone when the question has a progress row in `pr` (carrying
that row's `sync_version + 1`), nothing otherwise. -/
def progressTombOf (env : Env) (pr : List QuestionProgress) (q : Question) :
    List PendingChange :=
  match listGet QuestionProgress.key q.id pr with
  | some p => [⟨"progress", q.id, "delete", [], p.sync_version + 1, env.now⟩]
  | none => []

/-- Tombstone of one child question itself. -/
def questionTombOf (env : Env) (q : Question) : PendingChange :=
  ⟨"questions", q.id, "delete", [], q.sync_version + 1, env.now⟩

/-- Tombstones enqueued by the cascade loop, in loop order: for each child
question, its progress tombstone (if any) immediately followed by the
question tombstone. -/
def cascadeTombs (env : Env) (pr : List QuestionProgress) :
    List Question → List PendingChange
  | [] => []
  | q :: qs => progressTombOf env pr q ++ [questionTombOf env q] ++ cascadeTombs env pr qs

/-- The parent topic's tombstone, enqueued when the topic row exists. -/
def topicTombOf (env : Env) (db : Db) (id : String) : List PendingChange :=
  match listGet Topic.key id db.topics with
  | some t => [⟨"topics", id, "delete", [], t.sync_version + 1, env.now⟩]
  | none => []

/-- Event trace of the cascade loop, in loop order: per child question, its
progress tombstone (when a progress row exists in `pr`), then the physical
progress deletion, then the question's tombstone. -/
def cascadeEvents (pr : List QuestionProgress) : List Question → List DelEvent
  | [] => []
  | q :: qs =>
    (match listGet QuestionProgress.key q.id pr with
     | some _ => [DelEvent.tomb "progress" q.id]
     | none => []) ++
    [DelEvent.physProgress q.id, DelEvent.tomb "questions" q.id] ++
    cascadeEvents pr qs

/-- The parent topic's tombstone event, when the topic row exists. -/
def topicTombEvent (db : Db) (id : String) : List DelEvent :=
  match listGet Topic.key id db.topics with
  | some _ => [DelEvent.tomb "topics" id]
  | none => []

/-! ### Generic lemmas about the keyed-table operations -/

theorem listGet_nil (key : α → String) (k : String) :
    listGet key k ([] : List α) = none := rfl

theorem listGet_cons (key : α → String) (k : String) (x : α) (l : List α) :
    listGet key k (x :: l) = if key x == k then some x else listGet key k l := by
  unfold listGet
  cases h : key x == k <;> simp [List.find?_cons, h]

theorem listGet_append (key : α → String) (k : String) (l₁ l₂ : List α) :
    listGet key k (l₁ ++ l₂) = (listGet key k l₁).or (listGet key k l₂) := by
  unfold listGet
  exact List.find?_append

theorem any_eq_isSome_listGet (key : α → String) (c : String) (l : List α) :
    l.any (fun x => key x == c) = (listGet key c l).isSome := by
  induction l with
  | nil => rfl
  | cons x xs ih => cases h : key x == c <;> simp [listGet_cons, h, ih]

theorem listGet_mapReplace (key : α → String) (r : α) (k : String) (l : List α) :
    listGet key k (l.map (fun x => if key x == key r then r else x)) =
      if key r == k then (listGet key (key r) l).map (fun _ => r)
      else listGet key k l := by
  induction l with
  | nil => cases h : key r == k <;> simp [listGet, h]
  | cons x xs ih =>
    rw [List.map_cons, listGet_cons, ih, listGet_cons, listGet_cons]
    cases hx : key x == key r with
    | true =>
      have hx' : key x = key r := by simpa using hx
      cases hk : key r == k with
      | true =>
        have hk' : key r = k := by simpa using hk
        simp [hx', hk', hk]
      | false =>
        have hxk : (key x == k) = false := by rw [hx']; exact hk
        simp [hx', hk, hxk]
    | false =>
      cases hk : key r == k with
      | true =>
        have hk' : key r = k := by simpa using hk
        have hxk : (key x == k) = false := by rw [← hk']; exact hx
        simp [hx, hxk, hk]
      | false =>
        cases hxk : key x == k with
        | true => simp [hx, hxk, hk]
        | false => simp [hx, hxk, hk]

theorem listGet_put (key : α → String) (r : α) (k : String) (l : List α) :
    listGet key k (listPut key r l) =
      if key r == k then some r else listGet key k l := by
  unfold listPut
  cases hany : l.any (fun x => key x == key r) with
  | false =>
    rw [if_neg (by simp [hany]), listGet_append]
    cases hk : key r == k with
    | true =>
      have hk' : key r = k := by simpa using hk
      have hnone : listGet key k l = none := by
        rw [any_eq_isSome_listGet key (key r) l, hk'] at hany
        exact Option.not_isSome_iff_eq_none.mp (by simp [hany])
      rw [hnone, Option.none_or, listGet_cons, if_pos hk]
      simp
    | false => simp [listGet_cons, hk, listGet, Option.or_none]
  | true =>
    rw [if_pos (by simp [hany]), listGet_mapReplace]
    cases hk : key r == k with
    | true =>
      rw [any_eq_isSome_listGet key (key r) l] at hany
      obtain ⟨x, hx⟩ := Option.isSome_iff_exists.mp hany
      simp [hk, hx]
    | false => simp [hk]

theorem listGet_del (key : α → String) (c k : String) (l : List α) :
    listGet key k (listDel key c l) = if c == k then none else listGet key k l := by
  induction l with
  | nil => cases h : c == k <;> simp [listDel, listGet, h]
  | cons x xs ih =>
    unfold listDel at ih ⊢
    cases hx : key x == c with
    | true =>
      have hx' : key x = c := by simpa using hx
      cases hck : c == k with
      | true => simp [List.filter_cons, hx, ih, hck]
      | false =>
        have hxk : (key x == k) = false := by rw [hx']; exact hck
        simp [List.filter_cons, hx, ih, hck, listGet_cons, hxk]
    | false =>
      cases hck : c == k with
      | true =>
        have hck' : c = k := by simpa using hck
        have hxk : (key x == k) = false := by rw [← hck']; exact hx
        simp [List.filter_cons, hx, ih, hck, listGet_cons, hxk]
      | false =>
        rw [List.filter_cons, if_pos (by simp [hx]), listGet_cons, ih, listGet_cons]
        simp [hck]

theorem listGet_update (key : α → String) (c k : String) (f : α → α)
    (hf : ∀ x, key (f x) = key x) (l : List α) :
    listGet key k (listUpdate key c f l) =
      if c == k then (listGet key k l).map f else listGet key k l := by
  induction l with
  | nil => cases h : c == k <;> simp [listUpdate, listGet, h]
  | cons x xs ih =>
    unfold listUpdate at ih ⊢
    rw [List.map_cons, listGet_cons, ih, listGet_cons]
    cases hx : key x == c with
    | true =>
      have hx' : key x = c := by simpa using hx
      cases hck : c == k with
      | true =>
        have hck' : c = k := by simpa using hck
        have hfk : (key (f x) == k) = true := by simp [hf, hx', hck']
        have hxk : (key x == k) = true := by simp [hx', hck']
        simp [hx, hfk, hxk, ih, hck]
      | false =>
        have hfk : (key (f x) == k) = false := by rw [hf, hx']; exact hck
        have hxk : (key x == k) = false := by rw [hx']; exact hck
        simp [hx, hfk, hxk, ih, hck]
    | false =>
      cases hck : c == k with
      | true =>
        have hck' : c = k := by simpa using hck
        have hxk : (key x == k) = false := by rw [← hck']; exact hx
        simp [hx, hxk, ih, hck]
      | false =>
        cases hxk : key x == k with
        | true => simp [hx, hxk, ih, hck]
        | false => simp [hx, hxk, ih, hck]

/-! ### Sync-meta store lemmas -/

theorem getSyncMeta_set_same (db : Db) (k v : String) :
    getSyncMeta (setSyncMeta db k v) k = some v := by
  unfold getSyncMeta setSyncMeta
  rw [listGet_put]
  simp

theorem getSyncMeta_set_other (db : Db) (k k2 v : String)
    (h : (k2 == k) = false) :
    getSyncMeta (setSyncMeta db k2 v) k = getSyncMeta db k := by
  unfold getSyncMeta setSyncMeta
  rw [listGet_put]
  simp [h]

theorem getSyncMeta_checkpoint_after_save (env : Env) (db : Db)
    (ck : Checkpoint) (t : Nat) :
    getSyncMeta (saveLastSyncAt (saveCheckpoint env db ck) t) "checkpoint" =
      some (env.stringifyCheckpoint ck) := by
  unfold saveLastSyncAt saveCheckpoint
  rw [getSyncMeta_set_other _ _ _ _ (by decide), getSyncMeta_set_same]

/-! ### Claim theorems: authentication and failure paths -/

/-- C10: if after refreshing tokens from the provider the client holds no
access token (tokens are installed as a pair, so this is also "no refresh
token"), `syncNow()` returns
`{pushed:0, pulled:0, conflicts:0, success:false, error:"Not authenticated"}`
immediately: the delta request is never issued and the database (rows,
tombstone queue, checkpoint and last-sync meta) is unchanged. -/
theorem syncNow_not_authenticated (env : Env) (provider : ProviderTokens)
    (net : Except String DeltaResponse) (c : ClientState) (db : Db)
    (h : isAuthenticated (refreshTokens provider c) = false) :
    syncNow env provider net c db =
      { result := { pushed := 0, pulled := 0, conflicts := 0, success := false,
                    error := some "Not authenticated", syncedAt := env.now }
        db := db
        client := refreshTokens provider c
        deltaCalled := false } := by
  unfold syncNow
  simp [h]

/-- Witness for C10 at a concrete unauthenticated state. -/
theorem syncNow_not_authenticated_witness :
    syncNow envC provNone (Except.error "boom") clientN Db.empty =
      { result := { pushed := 0, pulled := 0, conflicts := 0, success := false,
                    error := some "Not authenticated", syncedAt := envC.now }
        db := Db.empty
        client := refreshTokens provNone clientN
        deltaCalled := false } :=
  syncNow_not_authenticated envC provNone (Except.error "boom") clientN Db.empty rfl

/-- C4: if the delta network call throws, `syncNow()` returns
`{pushed:0, pulled:0, conflicts:0, success:false}` carrying the thrown
message, and the database is exactly the pre-call database: no `synced_at`
write, no tombstone removal, no pulled record applied, and the stored
checkpoint / last-sync-at values are untouched. -/
theorem syncNow_network_failure (env : Env) (provider : ProviderTokens)
    (c : ClientState) (db : Db) (e : String)
    (h : isAuthenticated (refreshTokens provider c) = true) :
    syncNow env provider (Except.error e) c db =
      { result := { pushed := 0, pulled := 0, conflicts := 0, success := false,
                    error := some e, syncedAt := env.now }
        db := db
        client := refreshTokens provider c
        deltaCalled := true } := by
  unfold syncNow
  simp [h]

/-- Witness for C4 at a concrete authenticated state and failing call. -/
theorem syncNow_network_failure_witness :
    syncNow envC provNone (Except.error "network down") clientA dbConflict =
      { result := { pushed := 0, pulled := 0, conflicts := 0, success := false,
                    error := some "network down", syncedAt := envC.now }
        db := dbConflict
        client := refreshTokens provNone clientA
        deltaCalled := true } :=
  syncNow_network_failure envC provNone clientA dbConflict "network down" rfl

/-- C9: on a successful delta whose pull component carries an empty records
list, the server-returned checkpoint is still persisted: the `checkpoint`
meta key afterwards holds exactly the (serialized) server checkpoint. -/
theorem syncNow_persists_checkpoint_empty_pull (env : Env)
    (provider : ProviderTokens) (c : ClientState) (db : Db)
    (resp : DeltaResponse) (ck : Checkpoint)
    (hauth : isAuthenticated (refreshTokens provider c) = true)
    (hpull : resp.pull = some { records := [], checkpoint := ck }) :
    getSyncMeta (syncNow env provider (Except.ok resp) c db).db "checkpoint" =
      some (env.stringifyCheckpoint ck) := by
  unfold syncNow
  cases hpush : resp.push with
  | none =>
    simp [hauth, hpush, hpull, getSyncMeta_checkpoint_after_save]
  | some p =>
    simp only [hauth, hpush, hpull]
    by_cases hs : p.synced > 0 <;>
      simp [hs, getSyncMeta_checkpoint_after_save]

/-- Witness for C9 at a concrete response with checkpoint `ck-1`. -/
theorem syncNow_persists_checkpoint_empty_pull_witness :
    getSyncMeta (syncNow envC provNone (Except.ok respEmptyPull) clientA Db.empty).db
        "checkpoint" = some (envC.stringifyCheckpoint ⟨"ck-1"⟩) :=
  syncNow_persists_checkpoint_empty_pull envC provNone clientA Db.empty
    respEmptyPull ⟨"ck-1"⟩ rfl rfl

/-- C1 (divergence witness): with two dirty topics `t1`, `t2` and a delta
response reporting one accepted row and `t2` as a conflict, the adapter marks
EVERY gathered pending row synced (`syncedIds = pendingChanges.map(...)`),
so the conflicted row `t2` ends with `synced_at` set and
`collectPendingChanges` afterwards no longer includes it — contradicting the
claim that exactly the accepted rows are marked and that `t2` stays dirty. -/
theorem syncNow_marks_conflicted_row_synced :
    (listGet Topic.key "t2"
        (syncNow envC provNone (Except.ok respConflict) clientA dbConflict).db.topics).map
        (fun t => t.synced_at) = some (some 100) ∧
    getPendingChanges envC
      (syncNow envC provNone (Except.ok respConflict) clientA dbConflict).db = [] :=
  ⟨rfl, rfl⟩

/-- C3 (counterexample): enqueueing a tombstone via `trackDelete` for a row
whose `sync_version` is 3 produces a pending change — and hence a pushed
`ChangeRecord` — with version 4, not the pre-mutation value 3. -/
theorem trackDelete_version_counterexample :
    getPendingChanges envC (trackDelete envC "questions" "q1" 3 Db.empty) =
      [{ tableName := "questions", rowId := "q1", data := [], version := 4,
         deleted := true }] ∧
    (4 : Nat) ≠ 3 :=
  ⟨rfl, by decide⟩

/-- C3 (amended): every pushed `ChangeRecord`'s version is the row's
`sync_version` AFTER the pending local mutation — the pre-mutation value
plus one — not the value before it: (a) `trackDelete` for a row whose
`sync_version` was `v` enqueues a tombstone with version `v + 1`, (b) the
wire tombstone record carries exactly the enqueued version, and (c) after
`WebTopicsAdapter.update` bumps a topic from `sync_version = v`, the pending
batch carries that row with version `v + 1`. -/
theorem pending_version_after_mutation (env : Env) (tdTable tdId : String)
    (v : Nat) (db : Db) (id : String) (dto : UpdateTopicDto) (t : Topic)
    (ht : listGet Topic.key id db.topics = some t) :
    (trackDelete env tdTable tdId v db).pendingChanges =
      db.pendingChanges ++
        [{ tableName := tdTable, rowId := tdId, operation := "delete",
           data := [], version := v + 1, createdAt := env.now }] ∧
    (∀ c : PendingChange, (tombstoneRecord c).version = c.version) ∧
    ∃ r ∈ getPendingChanges env (topicUpdate env id dto db).2,
      r.tableName = "topics" ∧ r.rowId = id ∧ r.deleted = false ∧
      r.version = t.sync_version + 1 := by
  refine ⟨rfl, fun c => rfl, ?_⟩
  have ht2 : List.find? (fun r => Topic.key r == id) db.topics = some t := by
    simpa [listGet] using ht
  have hmem : t ∈ db.topics := List.mem_of_find?_eq_some ht2
  have hkey : (Topic.key t == id) = true := by
    have h3 := List.find?_some (p := fun r => Topic.key r == id) ht2
    simpa using h3
  have hkey' : t.id = id := by simpa [Topic.key] using hkey
  have hdb : (topicUpdate env id dto db).2 =
      { db with topics :=
          listUpdate Topic.key id (applyTopicPatch env dto) db.topics } := by
    unfold topicUpdate
    rw [ht]
  rw [hdb]
  refine ⟨topicPendingRecord env (applyTopicPatch env dto t), ?_, rfl, ?_, rfl, ?_⟩
  · unfold getPendingChanges
    apply List.mem_append_left
    apply List.mem_append_left
    apply List.mem_append_left
    apply List.mem_append_left
    apply List.mem_map_of_mem
    apply List.mem_filter.mpr
    constructor
    · unfold listUpdate
      have heq : (fun x => if Topic.key x == id then applyTopicPatch env dto x else x) t
          = applyTopicPatch env dto t := by simp [hkey]
      exact heq ▸ List.mem_map_of_mem _ hmem
    · rfl
  · show (applyTopicPatch env dto t).id = id
    simpa [applyTopicPatch] using hkey'
  · show (if (applyTopicPatch env dto t).sync_version == 0 then 1
      else (applyTopicPatch env dto t).sync_version) = t.sync_version + 1
    simp [applyTopicPatch]

/-- Witness for C3 at a concrete tombstone (version 3 row) and a concrete
topic update. -/
theorem pending_version_after_mutation_witness :
    (trackDelete envC "questions" "q1" 3 dbConflict).pendingChanges =
      dbConflict.pendingChanges ++
        [{ tableName := "questions", rowId := "q1", operation := "delete",
           data := [], version := 4, createdAt := envC.now }] ∧
    (∀ c : PendingChange, (tombstoneRecord c).version = c.version) ∧
    ∃ r ∈ getPendingChanges envC (topicUpdate envC "t1" {} dbConflict).2,
      r.tableName = "topics" ∧ r.rowId = "t1" ∧ r.deleted = false ∧
      r.version = topicT1.sync_version + 1 :=
  pending_version_after_mutation envC "questions" "q1" 3 dbConflict "t1" {} topicT1 rfl

/-! ### The cascade delete of `WebTopicsAdapter.delete` -/

theorem cascadeTombs_cons (env : Env) (pr : List QuestionProgress)
    (q : Question) (qs : List Question) :
    cascadeTombs env pr (q :: qs) =
      progressTombOf env pr q ++ [questionTombOf env q] ++ cascadeTombs env pr qs := rfl

theorem cascadeEvents_cons (pr : List QuestionProgress) (q : Question)
    (qs : List Question) :
    cascadeEvents pr (q :: qs) =
      (match listGet QuestionProgress.key q.id pr with
       | some _ => [DelEvent.tomb "progress" q.id]
       | none => []) ++
      [DelEvent.physProgress q.id, DelEvent.tomb "questions" q.id] ++
      cascadeEvents pr qs := rfl

theorem cascadeTombs_del (env : Env) (qs : List Question)
    (pr : List QuestionProgress) (c : String)
    (h : ∀ q ∈ qs, (Question.key q == c) = false) :
    cascadeTombs env (listDel QuestionProgress.key c pr) qs =
      cascadeTombs env pr qs := by
  induction qs with
  | nil => rfl
  | cons q qs ih =>
    have hq : (Question.key q == c) = false := h q (List.mem_cons_self q qs)
    have hcq : (c == Question.key q) = false := by
      have : Question.key q ≠ c := by simpa using hq
      simpa using this.symm
    unfold cascadeTombs progressTombOf
    rw [listGet_del]
    simp only [Question.key] at hcq
    rw [hcq]
    simp only [Bool.false_eq_true, if_neg, ite_false]
    rw [ih (fun q hqm => h q (List.mem_cons_of_mem _ hqm))]

theorem cascadeEvents_del (qs : List Question)
    (pr : List QuestionProgress) (c : String)
    (h : ∀ q ∈ qs, (Question.key q == c) = false) :
    cascadeEvents (listDel QuestionProgress.key c pr) qs =
      cascadeEvents pr qs := by
  induction qs with
  | nil => rfl
  | cons q qs ih =>
    have hq : (Question.key q == c) = false := h q (List.mem_cons_self q qs)
    have hcq : (c == Question.key q) = false := by
      have : Question.key q ≠ c := by simpa using hq
      simpa using this.symm
    unfold cascadeEvents
    rw [listGet_del]
    simp only [Question.key] at hcq
    rw [hcq]
    simp only [Bool.false_eq_true, if_neg, ite_false]
    rw [ih (fun q hqm => h q (List.mem_cons_of_mem _ hqm))]

theorem cascade_loop (env : Env) (qs : List Question) (db : Db)
    (evs : List DelEvent) (hnd : (qs.map Question.key).Nodup) :
    qs.foldl (deleteQuestionStep env) (db, evs) =
      ({ db with
          progress := qs.foldl
            (fun pr q => listDel QuestionProgress.key q.id pr) db.progress
          pendingChanges := db.pendingChanges ++ cascadeTombs env db.progress qs },
       evs ++ cascadeEvents db.progress qs) := by
  induction qs generalizing db evs with
  | nil => simp [cascadeTombs, cascadeEvents]
  | cons q qs ih =>
    have hnotin : Question.key q ∉ qs.map Question.key :=
      (List.nodup_cons.mp (by simpa using hnd)).1
    have hnd2 : (qs.map Question.key).Nodup :=
      (List.nodup_cons.mp (by simpa using hnd)).2
    have hne : ∀ q2 ∈ qs, (Question.key q2 == Question.key q) = false := by
      intro q2 hq2
      have : Question.key q2 ≠ Question.key q := by
        intro hcontra
        exact hnotin (hcontra ▸ List.mem_map_of_mem Question.key hq2)
      simpa using this
    have hstep : deleteQuestionStep env (db, evs) q =
        ({ db with
            progress := listDel QuestionProgress.key q.id db.progress
            pendingChanges := db.pendingChanges ++
              (progressTombOf env db.progress q ++ [questionTombOf env q]) },
         evs ++
           ((match listGet QuestionProgress.key q.id db.progress with
             | some _ => [DelEvent.tomb "progress" q.id]
             | none => []) ++
            [DelEvent.physProgress q.id, DelEvent.tomb "questions" q.id])) := by
      cases hp : listGet QuestionProgress.key q.id db.progress <;>
        simp [deleteQuestionStep, trackDelete, hp, progressTombOf, questionTombOf]
    rw [List.foldl_cons, hstep, ih _ _ hnd2]
    have hct : cascadeTombs env (listDel QuestionProgress.key q.id db.progress) qs =
        cascadeTombs env db.progress qs := cascadeTombs_del env qs db.progress q.id hne
    have hce : cascadeEvents (listDel QuestionProgress.key q.id db.progress) qs =
        cascadeEvents db.progress qs := cascadeEvents_del qs db.progress q.id hne
    simp only [hct, hce, cascadeTombs_cons, cascadeEvents_cons]
    simp [List.append_assoc]

/-- C2 (counterexample): deleting topic `t1` with the two child questions
`q1`, `q2`, each having progress, enqueues the tombstones INTERLEAVED per
question — progress(q1), question(q1), progress(q2), question(q2),
topic(t1) — not "all progress rows first, then all question rows, then the
topic" as the claim states. -/
theorem topicDelete_order_counterexample :
    (topicDelete envC "t1" dbCascade).pendingChanges =
      [⟨"progress", "q1", "delete", [], 4, 100⟩,
       ⟨"questions", "q1", "delete", [], 3, 100⟩,
       ⟨"progress", "q2", "delete", [], 8, 100⟩,
       ⟨"questions", "q2", "delete", [], 6, 100⟩,
       ⟨"topics", "t1", "delete", [], 10, 100⟩] ∧
    (topicDelete envC "t1" dbCascade).pendingChanges ≠
      [⟨"progress", "q1", "delete", [], 4, 100⟩,
       ⟨"progress", "q2", "delete", [], 8, 100⟩,
       ⟨"questions", "q1", "delete", [], 3, 100⟩,
       ⟨"questions", "q2", "delete", [], 6, 100⟩,
       ⟨"topics", "t1", "delete", [], 10, 100⟩] :=
  ⟨rfl, by decide⟩

/-- C2 (amended): deleting a Topic whose child questions have pairwise
distinct ids enqueues, for EACH child question in iteration order, its
Progress tombstone (when a progress row exists) immediately followed by that
Question's tombstone — the per-question blocks are interleaved, not grouped
by table — and the Topic tombstone last; and in the step trace each
tombstone is enqueued before the corresponding physical deletion: per
question the order is progress-tombstone, physical progress delete,
question-tombstone, then the bulk physical question delete follows all
question tombstones, and the topic tombstone precedes the physical topic
delete. -/
theorem topicDelete_cascade_order (env : Env) (id : String) (db : Db)
    (hnd : ((db.questions.filter (fun q => q.topicId == id)).map
      Question.key).Nodup) :
    (topicDelete env id db).pendingChanges =
      db.pendingChanges ++
        cascadeTombs env db.progress
          (db.questions.filter (fun q => q.topicId == id)) ++
        topicTombOf env db id ∧
    (topicDeleteRun env id db).2 =
      cascadeEvents db.progress
          (db.questions.filter (fun q => q.topicId == id)) ++
        [DelEvent.physQuestions id] ++ topicTombEvent db id ++
        [DelEvent.physTopic id] := by
  unfold topicDelete topicDeleteRun
  simp only [cascade_loop env _ db [] hnd]
  cases htp : listGet Topic.key id db.topics <;>
    simp [trackDelete, topicTombOf, topicTombEvent, htp, List.append_assoc]

/-- Witness for C2's amended theorem at the concrete two-question cascade. -/
theorem topicDelete_cascade_order_witness :
    (topicDelete envC "t1" dbCascade).pendingChanges =
      dbCascade.pendingChanges ++
        cascadeTombs envC dbCascade.progress
          (dbCascade.questions.filter (fun q => q.topicId == "t1")) ++
        topicTombOf envC dbCascade "t1" ∧
    (topicDeleteRun envC "t1" dbCascade).2 =
      cascadeEvents dbCascade.progress
          (dbCascade.questions.filter (fun q => q.topicId == "t1")) ++
        [DelEvent.physQuestions "t1"] ++ topicTombEvent dbCascade "t1" ++
        [DelEvent.physTopic "t1"] :=
  topicDelete_cascade_order envC "t1" dbCascade (by decide)

/-! ### markSynced effects (C6) -/

theorem markSyncedOne_fields (now : Nat) (db : Db) (p : String × String) :
    (markSyncedOne now db p).pendingChanges =
      db.pendingChanges.filter (fun c =>
        !(c.tableName == serverToLocalTableName p.1 && c.rowId == p.2)) ∧
    (markSyncedOne now db p).topics =
      db.topics.map (fun t =>
        if p.1 == "topics" && Topic.key t == p.2
        then { t with synced_at := some now } else t) ∧
    (markSyncedOne now db p).questions =
      db.questions.map (fun q =>
        if p.1 == "questions" && Question.key q == p.2
        then { q with synced_at := some now } else q) ∧
    (markSyncedOne now db p).progress =
      db.progress.map (fun q =>
        if p.1 == "progress" && QuestionProgress.key q == p.2
        then { q with synced_at := some now } else q) ∧
    (markSyncedOne now db p).quizSessions =
      db.quizSessions.map (fun s =>
        if (p.1 == "quizSessions" || p.1 == "quiz_sessions") && QuizSession.key s == p.2
        then { s with synced_at := some now } else s) ∧
    (markSyncedOne now db p).syncMeta = db.syncMeta := by
  obtain ⟨pt, pid⟩ := p
  by_cases h1 : pt = "topics"
  · subst h1
    simp [markSyncedOne, listUpdate]
  · by_cases h2 : pt = "questions"
    · subst h2
      simp [markSyncedOne, listUpdate]
    · by_cases h3 : pt = "progress"
      · subst h3
        simp [markSyncedOne, listUpdate]
      · by_cases h4 : pt = "quizSessions"
        · subst h4
          simp [markSyncedOne, listUpdate]
        · by_cases h5 : pt = "quiz_sessions"
          · subst h5
            simp [markSyncedOne, listUpdate]
          · have b1 : (pt == "topics") = false := by simpa using h1
            have b2 : (pt == "questions") = false := by simpa using h2
            have b3 : (pt == "progress") = false := by simpa using h3
            have b4 : (pt == "quizSessions") = false := by simpa using h4
            have b5 : (pt == "quiz_sessions") = false := by simpa using h5
            simp [markSyncedOne, b1, b2, b3, b4, b5]

theorem if_set_comp (x : α) (f : α → α) (b1 : Bool) (g : α → Bool)
    (hg : ∀ y, g (f y) = g y) (hff : f (f x) = f x) :
    (if g (if b1 then f x else x) then f (if b1 then f x else x)
     else (if b1 then f x else x)) =
      (if b1 || g x then f x else x) := by
  cases b1 <;> cases hgx : g x <;> simp [hg, hgx, hff]

theorem not_and_not_eq (a b : Bool) : (!b && !a) = !(a || b) := by
  cases a <;> cases b <;> rfl

/-- C6: for every `markSynced` call, (1) exactly the tombstone-queue entries
whose (local-named) key is listed are removed and all other queue entries
are kept; (2) each entity table afterwards is the pointwise image of the old
table in which exactly the listed-and-present rows get `synced_at := now`
and every other row — and every other field of an updated row — is
unchanged; in particular no absent row is re-created (the tables keep their
row sets), and `quiz_sessions` ids are matched on the `quizSessions` table;
(3) the sync-meta store is untouched. -/
theorem markSynced_effects (now : Nat) (ids : List (String × String)) (db : Db) :
    (markSynced now ids db).pendingChanges =
      db.pendingChanges.filter (fun c =>
        !(ids.any (fun p =>
            c.tableName == serverToLocalTableName p.1 && c.rowId == p.2))) ∧
    (markSynced now ids db).topics =
      db.topics.map (fun t =>
        if ids.any (fun p => p.1 == "topics" && Topic.key t == p.2)
        then { t with synced_at := some now } else t) ∧
    (markSynced now ids db).questions =
      db.questions.map (fun q =>
        if ids.any (fun p => p.1 == "questions" && Question.key q == p.2)
        then { q with synced_at := some now } else q) ∧
    (markSynced now ids db).progress =
      db.progress.map (fun q =>
        if ids.any (fun p => p.1 == "progress" && QuestionProgress.key q == p.2)
        then { q with synced_at := some now } else q) ∧
    (markSynced now ids db).quizSessions =
      db.quizSessions.map (fun s =>
        if ids.any (fun p =>
            (p.1 == "quizSessions" || p.1 == "quiz_sessions") && QuizSession.key s == p.2)
        then { s with synced_at := some now } else s) ∧
    (markSynced now ids db).syncMeta = db.syncMeta := by
  induction ids generalizing db with
  | nil =>
    simp [markSynced]
  | cons p ids ih =>
    have hone := markSyncedOne_fields now db p
    have hrest := ih (markSyncedOne now db p)
    have hfold : markSynced now (p :: ids) db =
        markSynced now ids (markSyncedOne now db p) := rfl
    refine ⟨?_, ?_, ?_, ?_, ?_, ?_⟩
    · rw [hfold, hrest.1, hone.1, List.filter_filter]
      apply List.filter_congr
      intro c _
      simp only [List.any_cons]
      exact not_and_not_eq _ _
    · rw [hfold, hrest.2.1, hone.2.1, List.map_map]
      apply List.map_congr_left
      intro t _
      simp only [Function.comp_apply, List.any_cons]
      exact if_set_comp t (fun y => { y with synced_at := some now }) _
        (fun y => ids.any (fun p2 => p2.1 == "topics" && Topic.key y == p2.2))
        (fun y => rfl) rfl
    · rw [hfold, hrest.2.2.1, hone.2.2.1, List.map_map]
      apply List.map_congr_left
      intro q _
      simp only [Function.comp_apply, List.any_cons]
      exact if_set_comp q (fun y => { y with synced_at := some now }) _
        (fun y => ids.any (fun p2 => p2.1 == "questions" && Question.key y == p2.2))
        (fun y => rfl) rfl
    · rw [hfold, hrest.2.2.2.1, hone.2.2.2.1, List.map_map]
      apply List.map_congr_left
      intro q _
      simp only [Function.comp_apply, List.any_cons]
      exact if_set_comp q (fun y => { y with synced_at := some now }) _
        (fun y => ids.any (fun p2 => p2.1 == "progress" && QuestionProgress.key y == p2.2))
        (fun y => rfl) rfl
    · rw [hfold, hrest.2.2.2.2.1, hone.2.2.2.2.1, List.map_map]
      apply List.map_congr_left
      intro s _
      simp only [Function.comp_apply, List.any_cons]
      exact if_set_comp s (fun y => { y with synced_at := some now }) _
        (fun y => ids.any (fun p2 =>
          (p2.1 == "quizSessions" || p2.1 == "quiz_sessions") && QuizSession.key y == p2.2))
        (fun y => rfl) rfl
    · rw [hfold, hrest.2.2.2.2.2, hone.2.2.2.2.2]

/-! ### Upsert effects (C7, C8) -/

/-- C7: a non-deleted pulled record of a known table is applied by writing a
FULL replacement row — decoded afresh from the record's `data`, independent
of any previous row under that key — stamped with `sync_version` equal to
the server-sent version and `synced_at` equal to the pull timestamp (for
`progress` the written key is `questionSyncUuid || rowId`); and the concrete
Scenario C batch `[{topics, t2, {name:"Go"}, 1, deleted:false}]` applied to
empty storage yields exactly the topics row `t2`/`Go`/`sync_version 1` with
`synced_at` set, which a subsequent `getPendingChanges` does not report. -/
theorem upsert_full_replacement (env : Env) (r : SyncRecord) (db : Db)
    (hnd : r.deleted = false) :
    applyRemoteChanges env [r] db = upsertRecord env r db ∧
    (r.tableName = "topics" →
      listGet Topic.key r.rowId (upsertRecord env r db).topics =
        some (topicRowOf env r) ∧
      (topicRowOf env r).sync_version = r.version ∧
      (topicRowOf env r).synced_at = some env.now) ∧
    (r.tableName = "questions" →
      listGet Question.key r.rowId (upsertRecord env r db).questions =
        some (questionRowOf env r) ∧
      (questionRowOf env r).sync_version = r.version ∧
      (questionRowOf env r).synced_at = some env.now) ∧
    (r.tableName = "progress" →
      listGet QuestionProgress.key (progressKeyOf r)
          (upsertRecord env r db).progress = some (progressRowOf env r) ∧
      (progressRowOf env r).sync_version = r.version ∧
      (progressRowOf env r).synced_at = some env.now) ∧
    (r.tableName = "quiz_sessions" →
      listGet QuizSession.key r.rowId (upsertRecord env r db).quizSessions =
        some (sessionRowOf env r) ∧
      (sessionRowOf env r).sync_version = r.version ∧
      (sessionRowOf env r).synced_at = some env.now) ∧
    (applyRemoteChanges envC [recScenC] Db.empty).topics =
      [{ id := "t2", name := "Go", description := "", slug := "", icon := "",
         color := "", subtopics := none, order := 0, createdAt := "T0",
         updatedAt := "T0", sync_version := 1, synced_at := some 100 }] ∧
    getPendingChanges envC (applyRemoteChanges envC [recScenC] Db.empty) = [] := by
  refine ⟨?_, ?_, ?_, ?_, ?_, rfl, rfl⟩
  · unfold applyRemoteChanges applyUpserts applyDeletes sortedNonDeleted sortedDeleted
    simp [hnd, stableSort, insStep]
  · intro h
    refine ⟨?_, rfl, rfl⟩
    simp only [upsertRecord, h]
    simp only [show (("topics" : String) == "topics") = true from rfl, if_pos]
    rw [listGet_put]
    simp [Topic.key, topicRowOf]
  · intro h
    refine ⟨?_, rfl, rfl⟩
    simp only [upsertRecord, h]
    simp
    rw [listGet_put]
    simp [Question.key, questionRowOf]
  · intro h
    refine ⟨?_, rfl, rfl⟩
    simp only [upsertRecord, h]
    simp
    rw [listGet_put]
    simp [QuestionProgress.key, progressRowOf, progressKeyOf]
  · intro h
    refine ⟨?_, rfl, rfl⟩
    simp only [upsertRecord, h]
    simp
    rw [listGet_put]
    simp [QuizSession.key, sessionRowOf]

/-- Witness for C7 at the Scenario C record against empty storage. -/
theorem upsert_full_replacement_witness :
    listGet Topic.key recScenC.rowId (upsertRecord envC recScenC Db.empty).topics =
      some (topicRowOf envC recScenC) :=
  ((upsert_full_replacement envC recScenC Db.empty rfl).2.1 rfl).1

/-- C8: a pulled Question record whose `tags` field is a string the JSON
parse rejects is still fully applied: the row is written (the decode failure
aborts neither the record nor — the apply being a total fold — the rest of
the batch), every other field is decoded from the record's `data` as usual,
and `tags` falls back to the empty list. -/
theorem question_decode_fault_isolated (env : Env) (r : SyncRecord) (db : Db)
    (s : String)
    (ht : r.tableName = "questions")
    (htags : dlookup "tags" r.data = some (.str s))
    (hfail : env.parseStrings s = none) :
    listGet Question.key r.rowId (upsertRecord env r db).questions =
      some (questionRowOf env r) ∧
    (questionRowOf env r).tags = [] ∧
    (questionRowOf env r).question = vStr (dlookup "question" r.data) "" ∧
    (questionRowOf env r).answer = decodeAnswer env (dlookup "answer" r.data) ∧
    (questionRowOf env r).difficulty =
      vStr (dlookup "difficulty" r.data) "beginner" ∧
    (questionRowOf env r).questionNumber =
      vNum (dlookup "questionNumber" r.data) 0 ∧
    (questionRowOf env r).sync_version = r.version ∧
    (questionRowOf env r).synced_at = some env.now := by
  refine ⟨?_, ?_, rfl, rfl, rfl, rfl, rfl, rfl⟩
  · simp only [upsertRecord, ht]
    simp
    rw [listGet_put]
    simp [Question.key, questionRowOf]
  · show decodeStrList env (dlookup "tags" r.data) [] [] = []
    rw [htags]
    unfold decodeStrList
    cases hs : s == "" <;> simp [hs, hfail]

/-- Witness for C8 at the concrete malformed-tags question record. -/
theorem question_decode_fault_isolated_witness :
    listGet Question.key recBadTags.rowId
        (upsertRecord envC recBadTags Db.empty).questions =
      some (questionRowOf envC recBadTags) ∧
    (questionRowOf envC recBadTags).tags = [] :=
  ⟨(question_decode_fault_isolated envC recBadTags Db.empty "not json"
      rfl rfl rfl).1,
   (question_decode_fault_isolated envC recBadTags Db.empty "not json"
      rfl rfl rfl).2.1⟩

/-! ### Stable sort and permutation lemmas (C5) -/

theorem insStep_perm (keep : α → α → Bool) (r : α) (l : List α) :
    (insStep keep r l).Perm (r :: l) := by
  induction l with
  | nil => exact List.Perm.refl _
  | cons x xs ih =>
    unfold insStep
    cases hk : keep x r
    · simp
    · simp only [if_pos]
      exact (List.Perm.cons x ih).trans (List.Perm.swap r x xs)

theorem stableSort_perm (keep : α → α → Bool) (l : List α) :
    (stableSort keep l).Perm l := by
  induction l with
  | nil => exact List.Perm.refl _
  | cons x xs ih =>
    exact (insStep_perm keep x (stableSort keep xs)).trans (List.Perm.cons x ih)

theorem find_eq_filter_head (l : List α) (p : α → Bool) :
    l.find? p = (l.filter p).head? := by
  induction l with
  | nil => rfl
  | cons x xs ih =>
    cases h : p x
    · rw [List.find?_cons, List.filter_cons]
      simp only [h, cond_false, Bool.false_eq_true, if_neg, ite_false]
      exact ih
    · rw [List.find?_cons, List.filter_cons]
      simp [h]

theorem perm_any (l l2 : List α) (p : α → Bool) (h : l.Perm l2) :
    l.any p = l2.any p := by
  rw [List.any_eq, List.any_eq]
  simp [h.mem_iff]

theorem perm_eq_of_length_le_one (l l2 : List α) (h : l.Perm l2)
    (hlen : l.length ≤ 1) : l = l2 := by
  cases l with
  | nil => exact h.symm.eq_nil.symm
  | cons x xs =>
    cases xs with
    | nil => exact (List.perm_singleton.mp h.symm).symm
    | cons y ys => simp at hlen

theorem filter_length_le_count [DecidableEq β] (l : List α) (p : α → Bool)
    (f : α → Option β) (c : β) (h : ∀ x ∈ l, p x = true → f x = some c) :
    (l.filter p).length ≤ (l.filterMap f).count c := by
  induction l with
  | nil => simp
  | cons x xs ih =>
    have ih2 := ih (fun y hy hp => h y (List.mem_cons_of_mem x hy) hp)
    cases hp : p x
    · rw [List.filter_cons]
      simp only [hp, Bool.false_eq_true, if_neg, ite_false]
      rw [List.filterMap_cons]
      cases hf : f x with
      | none => exact ih2
      | some b =>
        refine ih2.trans ?_
        by_cases hbc : b = c <;> simp [hbc, List.count_cons]
    · rw [List.filter_cons]
      simp only [hp, if_pos, ite_true]
      rw [List.filterMap_cons, h x (List.mem_cons_self x xs) hp]
      simp only [List.length_cons, List.count_cons, beq_self_eq_true, if_pos,
        ite_true]
      omega

theorem find_rev_eq_of_perm (l l2 : List α) (p : α → Bool) (hp : l.Perm l2)
    (hlen : (l.filter p).length ≤ 1) :
    l.reverse.find? p = l2.reverse.find? p := by
  rw [find_eq_filter_head, find_eq_filter_head, List.filter_reverse,
    List.filter_reverse]
  have hfp : (l.filter p).Perm (l2.filter p) := hp.filter p
  rw [perm_eq_of_length_le_one (l.filter p) (l2.filter p) hfp hlen]

/-! ### Pointwise effect of one upsert / delete on each table (C5) -/

theorem upsert_topics_lookup (env : Env) (r : SyncRecord) (db : Db) (k : String) :
    listGet Topic.key k (upsertRecord env r db).topics =
      if r.tableName == "topics" && r.rowId == k then some (topicRowOf env r)
      else listGet Topic.key k db.topics := by
  by_cases h1 : r.tableName = "topics"
  · simp only [upsertRecord, h1]
    simp only [show (("topics" : String) == "topics") = true from rfl, if_pos,
      ite_true, Bool.true_and]
    rw [listGet_put]
    rfl
  · have hb : (r.tableName == "topics") = false := by simpa using h1
    simp only [upsertRecord, hb, Bool.false_and, Bool.false_eq_true, if_neg,
      ite_false]
    split_ifs <;> rfl

theorem upsert_questions_lookup (env : Env) (r : SyncRecord) (db : Db)
    (k : String) :
    listGet Question.key k (upsertRecord env r db).questions =
      if r.tableName == "questions" && r.rowId == k then
        some (questionRowOf env r)
      else listGet Question.key k db.questions := by
  by_cases h2 : r.tableName = "questions"
  · simp only [upsertRecord, h2]
    simp
    rw [listGet_put]
    by_cases hk : r.rowId = k <;> simp [hk, Question.key, questionRowOf]
  · have hb : (r.tableName == "questions") = false := by simpa using h2
    simp only [upsertRecord, hb, Bool.false_and, Bool.false_eq_true, if_neg,
      ite_false]
    split_ifs <;> rfl

theorem upsert_progress_lookup (env : Env) (r : SyncRecord) (db : Db)
    (k : String) :
    listGet QuestionProgress.key k (upsertRecord env r db).progress =
      if r.tableName == "progress" && progressKeyOf r == k then
        some (progressRowOf env r)
      else listGet QuestionProgress.key k db.progress := by
  by_cases h3 : r.tableName = "progress"
  · simp only [upsertRecord, h3]
    simp
    rw [listGet_put]
    by_cases hk : progressKeyOf r = k <;>
      simp [hk, QuestionProgress.key, progressRowOf, progressKeyOf]
  · have hb : (r.tableName == "progress") = false := by simpa using h3
    simp only [upsertRecord, hb, Bool.false_and, Bool.false_eq_true, if_neg,
      ite_false]
    split_ifs <;> rfl

theorem upsert_sessions_lookup (env : Env) (r : SyncRecord) (db : Db)
    (k : String) :
    listGet QuizSession.key k (upsertRecord env r db).quizSessions =
      if r.tableName == "quiz_sessions" && r.rowId == k then
        some (sessionRowOf env r)
      else listGet QuizSession.key k db.quizSessions := by
  by_cases h4 : r.tableName = "quiz_sessions"
  · simp only [upsertRecord, h4]
    simp
    rw [listGet_put]
    by_cases hk : r.rowId = k <;> simp [hk, QuizSession.key, sessionRowOf]
  · have hb : (r.tableName == "quiz_sessions") = false := by simpa using h4
    simp only [upsertRecord, hb, Bool.false_and, Bool.false_eq_true, if_neg,
      ite_false]
    split_ifs <;> rfl

theorem delete_topics_lookup (r : SyncRecord) (db : Db) (k : String) :
    listGet Topic.key k (deleteRecord r db).topics =
      if r.tableName == "topics" && r.rowId == k then none
      else listGet Topic.key k db.topics := by
  by_cases h1 : r.tableName = "topics"
  · simp only [deleteRecord, h1]
    simp only [show (("topics" : String) == "topics") = true from rfl, if_pos,
      ite_true, Bool.true_and]
    rw [listGet_del]
  · have hb : (r.tableName == "topics") = false := by simpa using h1
    simp only [deleteRecord, hb, Bool.false_and, Bool.false_eq_true, if_neg,
      ite_false]
    split_ifs <;> rfl

theorem delete_questions_lookup (r : SyncRecord) (db : Db) (k : String) :
    listGet Question.key k (deleteRecord r db).questions =
      if r.tableName == "questions" && r.rowId == k then none
      else listGet Question.key k db.questions := by
  by_cases h2 : r.tableName = "questions"
  · simp only [deleteRecord, h2]
    simp
    rw [listGet_del]
    by_cases hk : r.rowId = k <;> simp [hk]
  · have hb : (r.tableName == "questions") = false := by simpa using h2
    simp only [deleteRecord, hb, Bool.false_and, Bool.false_eq_true, if_neg,
      ite_false]
    split_ifs <;> rfl

theorem delete_progress_lookup (r : SyncRecord) (db : Db) (k : String) :
    listGet QuestionProgress.key k (deleteRecord r db).progress =
      if r.tableName == "progress" && r.rowId == k then none
      else listGet QuestionProgress.key k db.progress := by
  by_cases h3 : r.tableName = "progress"
  · simp only [deleteRecord, h3]
    simp
    rw [listGet_del]
    by_cases hk : r.rowId = k <;> simp [hk]
  · have hb : (r.tableName == "progress") = false := by simpa using h3
    simp only [deleteRecord, hb, Bool.false_and, Bool.false_eq_true, if_neg,
      ite_false]
    split_ifs <;> rfl

theorem delete_sessions_lookup (r : SyncRecord) (db : Db) (k : String) :
    listGet QuizSession.key k (deleteRecord r db).quizSessions =
      if (r.tableName == "quizSessions" || r.tableName == "quiz_sessions") &&
          r.rowId == k then none
      else listGet QuizSession.key k db.quizSessions := by
  by_cases h4 : r.tableName = "quizSessions"
  · simp only [deleteRecord, h4]
    simp
    rw [listGet_del]
    by_cases hk : r.rowId = k <;> simp [hk]
  · by_cases h5 : r.tableName = "quiz_sessions"
    · simp only [deleteRecord, h5]
      simp
      rw [listGet_del]
      by_cases hk : r.rowId = k <;> simp [hk]
    · have hb4 : (r.tableName == "quizSessions") = false := by simpa using h4
      have hb5 : (r.tableName == "quiz_sessions") = false := by simpa using h5
      simp only [deleteRecord, hb4, hb5, Bool.or_self, Bool.false_and,
        Bool.false_eq_true, if_neg, ite_false, Bool.false_or]
      split_ifs <;> rfl

/-! ### Characterization of the two passes of `applyRemoteChanges` (C5) -/

theorem applyUpserts_topics (env : Env) (l : List SyncRecord) (db : Db)
    (k : String) :
    listGet Topic.key k (applyUpserts env l db).topics =
      match l.reverse.find? (fun r => r.tableName == "topics" && r.rowId == k) with
      | some r => some (topicRowOf env r)
      | none => listGet Topic.key k db.topics := by
  induction l generalizing db with
  | nil => simp [applyUpserts]
  | cons r l ih =>
    rw [show applyUpserts env (r :: l) db =
      applyUpserts env l (upsertRecord env r db) from rfl, ih]
    rw [List.reverse_cons, List.find?_append]
    cases hf : l.reverse.find? (fun r => r.tableName == "topics" && r.rowId == k) with
    | some r2 => simp
    | none =>
      simp only [Option.none_or]
      cases hp : (r.tableName == "topics" && r.rowId == k) <;>
        simp [List.find?_cons, hp, upsert_topics_lookup]

theorem applyUpserts_questions (env : Env) (l : List SyncRecord) (db : Db)
    (k : String) :
    listGet Question.key k (applyUpserts env l db).questions =
      match l.reverse.find? (fun r => r.tableName == "questions" && r.rowId == k) with
      | some r => some (questionRowOf env r)
      | none => listGet Question.key k db.questions := by
  induction l generalizing db with
  | nil => simp [applyUpserts]
  | cons r l ih =>
    rw [show applyUpserts env (r :: l) db =
      applyUpserts env l (upsertRecord env r db) from rfl, ih]
    rw [List.reverse_cons, List.find?_append]
    cases hf : l.reverse.find? (fun r => r.tableName == "questions" && r.rowId == k) with
    | some r2 => simp
    | none =>
      simp only [Option.none_or]
      cases hp : (r.tableName == "questions" && r.rowId == k) <;>
        simp [List.find?_cons, hp, upsert_questions_lookup]

theorem applyUpserts_progress (env : Env) (l : List SyncRecord) (db : Db)
    (k : String) :
    listGet QuestionProgress.key k (applyUpserts env l db).progress =
      match l.reverse.find? (fun r => r.tableName == "progress" && progressKeyOf r == k) with
      | some r => some (progressRowOf env r)
      | none => listGet QuestionProgress.key k db.progress := by
  induction l generalizing db with
  | nil => simp [applyUpserts]
  | cons r l ih =>
    rw [show applyUpserts env (r :: l) db =
      applyUpserts env l (upsertRecord env r db) from rfl, ih]
    rw [List.reverse_cons, List.find?_append]
    cases hf : l.reverse.find? (fun r => r.tableName == "progress" && progressKeyOf r == k) with
    | some r2 => simp
    | none =>
      simp only [Option.none_or]
      cases hp : (r.tableName == "progress" && progressKeyOf r == k) <;>
        simp [List.find?_cons, hp, upsert_progress_lookup]

theorem applyUpserts_sessions (env : Env) (l : List SyncRecord) (db : Db)
    (k : String) :
    listGet QuizSession.key k (applyUpserts env l db).quizSessions =
      match l.reverse.find? (fun r => r.tableName == "quiz_sessions" && r.rowId == k) with
      | some r => some (sessionRowOf env r)
      | none => listGet QuizSession.key k db.quizSessions := by
  induction l generalizing db with
  | nil => simp [applyUpserts]
  | cons r l ih =>
    rw [show applyUpserts env (r :: l) db =
      applyUpserts env l (upsertRecord env r db) from rfl, ih]
    rw [List.reverse_cons, List.find?_append]
    cases hf : l.reverse.find? (fun r => r.tableName == "quiz_sessions" && r.rowId == k) with
    | some r2 => simp
    | none =>
      simp only [Option.none_or]
      cases hp : (r.tableName == "quiz_sessions" && r.rowId == k) <;>
        simp [List.find?_cons, hp, upsert_sessions_lookup]

theorem applyDeletes_topics (l : List SyncRecord) (db : Db) (k : String) :
    listGet Topic.key k (applyDeletes l db).topics =
      if l.any (fun r => r.tableName == "topics" && r.rowId == k) then none
      else listGet Topic.key k db.topics := by
  induction l generalizing db with
  | nil => simp [applyDeletes]
  | cons r l ih =>
    rw [show applyDeletes (r :: l) db = applyDeletes l (deleteRecord r db) from rfl, ih]
    cases hp : (r.tableName == "topics" && r.rowId == k) <;>
      cases ha : l.any (fun r => r.tableName == "topics" && r.rowId == k) <;>
      simp [List.any_cons, hp, ha, delete_topics_lookup]

theorem applyDeletes_questions (l : List SyncRecord) (db : Db) (k : String) :
    listGet Question.key k (applyDeletes l db).questions =
      if l.any (fun r => r.tableName == "questions" && r.rowId == k) then none
      else listGet Question.key k db.questions := by
  induction l generalizing db with
  | nil => simp [applyDeletes]
  | cons r l ih =>
    rw [show applyDeletes (r :: l) db = applyDeletes l (deleteRecord r db) from rfl, ih]
    cases hp : (r.tableName == "questions" && r.rowId == k) <;>
      cases ha : l.any (fun r => r.tableName == "questions" && r.rowId == k) <;>
      simp [List.any_cons, hp, ha, delete_questions_lookup]

theorem applyDeletes_progress (l : List SyncRecord) (db : Db) (k : String) :
    listGet QuestionProgress.key k (applyDeletes l db).progress =
      if l.any (fun r => r.tableName == "progress" && r.rowId == k) then none
      else listGet QuestionProgress.key k db.progress := by
  induction l generalizing db with
  | nil => simp [applyDeletes]
  | cons r l ih =>
    rw [show applyDeletes (r :: l) db = applyDeletes l (deleteRecord r db) from rfl, ih]
    cases hp : (r.tableName == "progress" && r.rowId == k) <;>
      cases ha : l.any (fun r => r.tableName == "progress" && r.rowId == k) <;>
      simp [List.any_cons, hp, ha, delete_progress_lookup]

theorem applyDeletes_sessions (l : List SyncRecord) (db : Db) (k : String) :
    listGet QuizSession.key k (applyDeletes l db).quizSessions =
      if l.any (fun r =>
          (r.tableName == "quizSessions" || r.tableName == "quiz_sessions") &&
            r.rowId == k) then none
      else listGet QuizSession.key k db.quizSessions := by
  induction l generalizing db with
  | nil => simp [applyDeletes]
  | cons r l ih =>
    rw [show applyDeletes (r :: l) db = applyDeletes l (deleteRecord r db) from rfl, ih]
    cases hp : ((r.tableName == "quizSessions" || r.tableName == "quiz_sessions") &&
        r.rowId == k) <;>
      cases ha : l.any (fun r =>
        (r.tableName == "quizSessions" || r.tableName == "quiz_sessions") &&
          r.rowId == k) <;>
      simp [List.any_cons, hp, ha, delete_sessions_lookup]

/-! ### Write keys and sortedness (C5) -/

theorem filterMap_writeKey_filter (l : List SyncRecord) :
    (l.filter (fun r => !r.deleted)).filterMap writeKey = l.filterMap writeKey := by
  induction l with
  | nil => rfl
  | cons r l ih =>
    cases hd : r.deleted
    · simp [List.filter_cons, hd, List.filterMap_cons, ih]
    · have hw : writeKey r = none := by simp [writeKey, hd]
      simp [List.filter_cons, hd, List.filterMap_cons, hw, ih]

theorem writeKey_topics (x : SyncRecord) (k : String) (hx : x.deleted = false)
    (hp : (x.tableName == "topics" && x.rowId == k) = true) :
    writeKey x = some ("topics", k) := by
  obtain ⟨h1, h2⟩ := Bool.and_eq_true_iff.mp hp
  have e1 : x.tableName = "topics" := by simpa using h1
  have e2 : x.rowId = k := by simpa using h2
  simp [writeKey, hx, e1, e2]

theorem writeKey_questions (x : SyncRecord) (k : String) (hx : x.deleted = false)
    (hp : (x.tableName == "questions" && x.rowId == k) = true) :
    writeKey x = some ("questions", k) := by
  obtain ⟨h1, h2⟩ := Bool.and_eq_true_iff.mp hp
  have e1 : x.tableName = "questions" := by simpa using h1
  have e2 : x.rowId = k := by simpa using h2
  simp [writeKey, hx, e1, e2]

theorem writeKey_progress (x : SyncRecord) (k : String) (hx : x.deleted = false)
    (hp : (x.tableName == "progress" && progressKeyOf x == k) = true) :
    writeKey x = some ("progress", k) := by
  obtain ⟨h1, h2⟩ := Bool.and_eq_true_iff.mp hp
  have e1 : x.tableName = "progress" := by simpa using h1
  have e2 : progressKeyOf x = k := by simpa using h2
  simp [writeKey, hx, e1, e2]

theorem writeKey_sessions (x : SyncRecord) (k : String) (hx : x.deleted = false)
    (hp : (x.tableName == "quiz_sessions" && x.rowId == k) = true) :
    writeKey x = some ("quiz_sessions", k) := by
  obtain ⟨h1, h2⟩ := Bool.and_eq_true_iff.mp hp
  have e1 : x.tableName = "quiz_sessions" := by simpa using h1
  have e2 : x.rowId = k := by simpa using h2
  simp [writeKey, hx, e1, e2]

theorem nondeleted_filter_le_one (records : List SyncRecord)
    (p : SyncRecord → Bool) (c : String × String)
    (hnodup : (records.filterMap writeKey).Nodup)
    (himp : ∀ x ∈ records.filter (fun r => !r.deleted),
      p x = true → writeKey x = some c) :
    ((records.filter (fun r => !r.deleted)).filter p).length ≤ 1 := by
  have h1 := filter_length_le_count (records.filter (fun r => !r.deleted))
    p writeKey c himp
  rw [filterMap_writeKey_filter] at h1
  exact h1.trans (List.nodup_iff_count_le_one.mp hnodup c)

theorem insStep_sorted_asc (rank : α → Nat) (r : α) (l : List α)
    (h : l.Sorted (fun a b => rank a ≤ rank b)) :
    (insStep (fun a b => decide (rank a < rank b)) r l).Sorted
      (fun a b => rank a ≤ rank b) := by
  induction l with
  | nil => simp [insStep]
  | cons x xs ih =>
    rw [List.sorted_cons] at h
    unfold insStep
    cases hk : decide (rank x < rank r)
    · simp only [Bool.false_eq_true, if_neg, ite_false]
      rw [List.sorted_cons]
      refine ⟨?_, List.sorted_cons.mpr h⟩
      intro b hb
      have hrx : rank r ≤ rank x := by
        have := of_decide_eq_false hk
        omega
      rcases List.mem_cons.mp hb with hbx | hbxs
      · subst hbx; exact hrx
      · exact hrx.trans (h.1 b hbxs)
    · simp only [if_pos, ite_true]
      rw [List.sorted_cons]
      refine ⟨?_, ih h.2⟩
      intro b hb
      have hmem := (insStep_perm _ r xs).mem_iff.mp hb
      rcases List.mem_cons.mp hmem with hbr | hbxs
      · subst hbr; exact Nat.le_of_lt (of_decide_eq_true hk)
      · exact h.1 b hbxs

theorem stableSort_sorted_asc (rank : α → Nat) (l : List α) :
    (stableSort (fun a b => decide (rank a < rank b)) l).Sorted
      (fun a b => rank a ≤ rank b) := by
  induction l with
  | nil => simp [stableSort]
  | cons x xs ih => exact insStep_sorted_asc rank x _ ih

theorem insStep_sorted_desc (rank : α → Nat) (r : α) (l : List α)
    (h : l.Sorted (fun a b => rank b ≤ rank a)) :
    (insStep (fun a b => decide (rank b < rank a)) r l).Sorted
      (fun a b => rank b ≤ rank a) := by
  induction l with
  | nil => simp [insStep]
  | cons x xs ih =>
    rw [List.sorted_cons] at h
    unfold insStep
    cases hk : decide (rank r < rank x)
    · simp only [Bool.false_eq_true, if_neg, ite_false]
      rw [List.sorted_cons]
      refine ⟨?_, List.sorted_cons.mpr h⟩
      intro b hb
      have hrx : rank x ≤ rank r := by
        have := of_decide_eq_false hk
        omega
      rcases List.mem_cons.mp hb with hbx | hbxs
      · subst hbx; exact hrx
      · exact (h.1 b hbxs).trans hrx
    · simp only [if_pos, ite_true]
      rw [List.sorted_cons]
      refine ⟨?_, ih h.2⟩
      intro b hb
      have hmem := (insStep_perm _ r xs).mem_iff.mp hb
      rcases List.mem_cons.mp hmem with hbr | hbxs
      · subst hbr; exact Nat.le_of_lt (of_decide_eq_true hk)
      · exact h.1 b hbxs

theorem stableSort_sorted_desc (rank : α → Nat) (l : List α) :
    (stableSort (fun a b => decide (rank b < rank a)) l).Sorted
      (fun a b => rank b ≤ rank a) := by
  induction l with
  | nil => simp [stableSort]
  | cons x xs ih => exact insStep_sorted_desc rank x _ ih

theorem upsertRecord_frame (env : Env) (r : SyncRecord) (db : Db) :
    (upsertRecord env r db).pendingChanges = db.pendingChanges ∧
    (upsertRecord env r db).syncMeta = db.syncMeta := by
  unfold upsertRecord
  split_ifs <;> exact ⟨rfl, rfl⟩

theorem deleteRecord_frame (r : SyncRecord) (db : Db) :
    (deleteRecord r db).pendingChanges = db.pendingChanges ∧
    (deleteRecord r db).syncMeta = db.syncMeta := by
  unfold deleteRecord
  split_ifs <;> exact ⟨rfl, rfl⟩

theorem applyUpserts_frame (env : Env) (l : List SyncRecord) (db : Db) :
    (applyUpserts env l db).pendingChanges = db.pendingChanges ∧
    (applyUpserts env l db).syncMeta = db.syncMeta := by
  induction l generalizing db with
  | nil => exact ⟨rfl, rfl⟩
  | cons r l ih =>
    have hs := upsertRecord_frame env r db
    have hr := ih (upsertRecord env r db)
    exact ⟨hr.1.trans hs.1, hr.2.trans hs.2⟩

theorem applyDeletes_frame (l : List SyncRecord) (db : Db) :
    (applyDeletes l db).pendingChanges = db.pendingChanges ∧
    (applyDeletes l db).syncMeta = db.syncMeta := by
  induction l generalizing db with
  | nil => exact ⟨rfl, rfl⟩
  | cons r l ih =>
    have hs := deleteRecord_frame r db
    have hr := ih (deleteRecord r db)
    exact ⟨hr.1.trans hs.1, hr.2.trans hs.2⟩

/-- C5 (amended): `applyRemoteChanges` upserts all non-deleted records in
ascending table rank (topics=0, questions=1, progress/quiz_sessions=2)
before any deletion and removes all deleted records in descending rank; and
PROVIDED no two non-deleted records of the batch write the same
(table, primary key) — `writeKey` is `none` for deleted records and unknown
tables — the resulting local state is independent of the input order of the
batch: for every permutation, every key of every table resolves to the same
row, and the tombstone queue and sync-meta are untouched.  (Without the
distinct-keys proviso the claim is false: two non-deleted records for the
same key resolve last-writer-wins, see the counterexample.) -/
theorem applyRemoteChanges_order_independent (env : Env)
    (records records2 : List SyncRecord) (db : Db)
    (hperm : records.Perm records2)
    (hnodup : (records.filterMap writeKey).Nodup) :
    (∀ k, listGet Topic.key k (applyRemoteChanges env records2 db).topics =
        listGet Topic.key k (applyRemoteChanges env records db).topics) ∧
    (∀ k, listGet Question.key k (applyRemoteChanges env records2 db).questions =
        listGet Question.key k (applyRemoteChanges env records db).questions) ∧
    (∀ k, listGet QuestionProgress.key k
        (applyRemoteChanges env records2 db).progress =
      listGet QuestionProgress.key k (applyRemoteChanges env records db).progress) ∧
    (∀ k, listGet QuizSession.key k
        (applyRemoteChanges env records2 db).quizSessions =
      listGet QuizSession.key k (applyRemoteChanges env records db).quizSessions) ∧
    (applyRemoteChanges env records2 db).pendingChanges =
      (applyRemoteChanges env records db).pendingChanges ∧
    (applyRemoteChanges env records2 db).syncMeta =
      (applyRemoteChanges env records db).syncMeta ∧
    List.Sorted (fun a b => getTableOrder a.tableName ≤ getTableOrder b.tableName)
      (sortedNonDeleted records) ∧
    List.Sorted (fun a b => getTableOrder b.tableName ≤ getTableOrder a.tableName)
      (sortedDeleted records) := by
  have hndperm : (sortedNonDeleted records).Perm (sortedNonDeleted records2) := by
    have h1 := stableSort_perm rankAsc (records.filter (fun r => !r.deleted))
    have h2 := stableSort_perm rankAsc (records2.filter (fun r => !r.deleted))
    exact h1.trans ((hperm.filter _).trans h2.symm)
  have hdperm : (sortedDeleted records).Perm (sortedDeleted records2) := by
    have h1 := stableSort_perm rankDesc (records.filter (fun r => r.deleted))
    have h2 := stableSort_perm rankDesc (records2.filter (fun r => r.deleted))
    exact h1.trans ((hperm.filter _).trans h2.symm)
  have hlen : ∀ p : SyncRecord → Bool, ∀ c : String × String,
      (∀ x ∈ records.filter (fun r => !r.deleted),
        p x = true → writeKey x = some c) →
      ((sortedNonDeleted records).filter p).length ≤ 1 := by
    intro p c himp
    have hl := List.Perm.length_eq
      ((stableSort_perm rankAsc (records.filter (fun r => !r.deleted))).filter p)
    rw [show sortedNonDeleted records =
      stableSort rankAsc (records.filter (fun r => !r.deleted)) from rfl, hl]
    exact nondeleted_filter_le_one records p c hnodup himp
  refine ⟨?_, ?_, ?_, ?_, ?_, ?_, ?_, ?_⟩
  · intro k
    unfold applyRemoteChanges
    rw [applyDeletes_topics, applyDeletes_topics, applyUpserts_topics,
      applyUpserts_topics]
    have hany := perm_any _ _
      (fun r => r.tableName == "topics" && r.rowId == k) hdperm.symm
    have hfind := find_rev_eq_of_perm _ _
      (fun r => r.tableName == "topics" && r.rowId == k) hndperm
      (hlen _ ("topics", k) (fun x hx hp =>
        writeKey_topics x k (by simpa using (List.mem_filter.mp hx).2) hp))
    rw [hany, ← hfind]
  · intro k
    unfold applyRemoteChanges
    rw [applyDeletes_questions, applyDeletes_questions, applyUpserts_questions,
      applyUpserts_questions]
    have hany := perm_any _ _
      (fun r => r.tableName == "questions" && r.rowId == k) hdperm.symm
    have hfind := find_rev_eq_of_perm _ _
      (fun r => r.tableName == "questions" && r.rowId == k) hndperm
      (hlen _ ("questions", k) (fun x hx hp =>
        writeKey_questions x k (by simpa using (List.mem_filter.mp hx).2) hp))
    rw [hany, ← hfind]
  · intro k
    unfold applyRemoteChanges
    rw [applyDeletes_progress, applyDeletes_progress, applyUpserts_progress,
      applyUpserts_progress]
    have hany := perm_any _ _
      (fun r => r.tableName == "progress" && r.rowId == k) hdperm.symm
    have hfind := find_rev_eq_of_perm _ _
      (fun r => r.tableName == "progress" && progressKeyOf r == k) hndperm
      (hlen _ ("progress", k) (fun x hx hp =>
        writeKey_progress x k (by simpa using (List.mem_filter.mp hx).2) hp))
    rw [hany, ← hfind]
  · intro k
    unfold applyRemoteChanges
    rw [applyDeletes_sessions, applyDeletes_sessions, applyUpserts_sessions,
      applyUpserts_sessions]
    have hany := perm_any _ _
      (fun r => (r.tableName == "quizSessions" || r.tableName == "quiz_sessions") &&
        r.rowId == k) hdperm.symm
    have hfind := find_rev_eq_of_perm _ _
      (fun r => r.tableName == "quiz_sessions" && r.rowId == k) hndperm
      (hlen _ ("quiz_sessions", k) (fun x hx hp =>
        writeKey_sessions x k (by simpa using (List.mem_filter.mp hx).2) hp))
    rw [hany, ← hfind]
  · unfold applyRemoteChanges
    rw [(applyDeletes_frame _ _).1, (applyDeletes_frame _ _).1,
      (applyUpserts_frame _ _ _).1, (applyUpserts_frame _ _ _).1]
  · unfold applyRemoteChanges
    rw [(applyDeletes_frame _ _).2, (applyDeletes_frame _ _).2,
      (applyUpserts_frame _ _ _).2, (applyUpserts_frame _ _ _).2]
  · exact stableSort_sorted_asc (fun r => getTableOrder r.tableName)
      (records.filter (fun r => !r.deleted))
  · exact stableSort_sorted_desc (fun r => getTableOrder r.tableName)
      (records.filter (fun r => r.deleted))

/-- C5 (counterexample): two non-deleted records for the SAME topics key
`t1` make the resulting state depend on batch order — the stable rank sort
keeps equal-rank records in input order, so the last writer wins: applying
`[A, B]` leaves name "B", applying the permutation `[B, A]` leaves "A". -/
theorem applyRemoteChanges_order_counterexample :
    [recDupA, recDupB].Perm [recDupB, recDupA] ∧
    (listGet Topic.key "t1"
        (applyRemoteChanges envC [recDupA, recDupB] Db.empty).topics).map
        (fun t => t.name) = some "B" ∧
    (listGet Topic.key "t1"
        (applyRemoteChanges envC [recDupB, recDupA] Db.empty).topics).map
        (fun t => t.name) = some "A" ∧
    listGet Topic.key "t1"
        (applyRemoteChanges envC [recDupA, recDupB] Db.empty).topics ≠
      listGet Topic.key "t1"
        (applyRemoteChanges envC [recDupB, recDupA] Db.empty).topics :=
  ⟨List.Perm.swap recDupB recDupA [], rfl, rfl, by decide⟩

/-- Witness for C5's amended theorem at a two-record batch with distinct
write keys and its transposition. -/
theorem applyRemoteChanges_order_independent_witness :
    listGet Topic.key "tA"
        (applyRemoteChanges envC [recPermB, recPermA] Db.empty).topics =
      listGet Topic.key "tA"
        (applyRemoteChanges envC [recPermA, recPermB] Db.empty).topics :=
  (applyRemoteChanges_order_independent envC [recPermA, recPermB]
    [recPermB, recPermA] Db.empty (List.Perm.swap recPermB recPermA [])
    (by decide)).1 "tA"
